import Mathlib

/-!
# DepositTx (core/types/tx_deposit.go)

A shallow embedding of the deposit transaction variant.  Go pointers are
modelled by an explicit heap: every `*big.Int`, `*common.Address`, byte
backing array and `*DepositTx` is a location in a store, `nil` is
`Option.none`, and a run-time panic is an explicit outcome.
-/

namespace DepositTx

/-! ## Memory model -/

/-- A non-nil pointer: an index into one of the stores of the heap. -/
abbrev Ptr := Nat

/-- The ways a call can halt instead of returning. -/
inductive Fault where
  /-- Go run-time error: invalid memory address or nil pointer dereference. -/
  | nilDeref
  /-- Go run-time error: index out of range. -/
  | outOfRange
  /-- A location that was never allocated (cannot occur in Go; kept so that
  the embedding is total on every heap). -/
  | dangling
  /-- An explicit `panic(msg)`. -/
  | explicit (msg : String)
  deriving DecidableEq, Repr

/-- Outcome of a call: it returns a value or it panics. -/
inductive Result (α : Type) where
  | ok (a : α)
  | panic (f : Fault)
  deriving DecidableEq, Repr

/-- The type `common.Address`, a fixed array of bytes (bytes are `Nat`s). -/
structure Address where
  bytes : List Nat
  deriving DecidableEq, Repr

/-- A Go byte slice header: backing array, offset into it and length.  The
capacity is left out, no operation of this file appends. -/
structure Slice where
  arr : Ptr
  off : Nat
  len : Nat
  deriving DecidableEq, Repr

end DepositTx

/-- The struct `DepositTx`.  `uint64` fields are `Nat`; pointer fields are
`Option Ptr` with `none` for `nil`; `Data` is `none` for the nil slice. -/
structure DepositTx where
  Nonce : Nat
  GasPrice : Option DepositTx.Ptr
  Gas : Nat
  To : Option DepositTx.Ptr
  Value : Option DepositTx.Ptr
  Data : Option DepositTx.Slice
  V : Option DepositTx.Ptr
  R : Option DepositTx.Ptr
  S : Option DepositTx.Ptr
  deriving DecidableEq, Repr

namespace DepositTx

/-- The heap: one store per kind of object, a pointer is an index.
Allocation appends to a store. -/
structure Heap where
  ints : List Int
  addrs : List Address
  arrs : List (List Nat)
  txs : List DepositTx
  deriving DecidableEq, Repr

/-- Dereference of a `*DepositTx`. -/
def loadTx (h : Heap) (tx : Ptr) : Result DepositTx :=
  match h.txs[tx]? with
  | some t => .ok t
  | none => .panic .dangling

/-! ## math/big -/

/-- Go `new(big.Int)`: a fresh integer holding zero. -/
def newInt (ints : List Int) : List Int × Option Ptr :=
  (ints ++ [0], some ints.length)

/-- Go `(z *big.Int).Set(x)`: `if z != x { z.abs = z.abs.set(x.abs); z.neg = x.neg }; return z`.
The pointers are compared first, so `z == x` (also both nil) returns `z`
untouched; otherwise a nil `z` or `x` is dereferenced. -/
def bigSet (ints : List Int) (z x : Option Ptr) : Result (List Int × Option Ptr) :=
  if z = x then .ok (ints, z)
  else
    match z, x with
    | some zp, some xp =>
      match ints[xp]? with
      | some v => if zp < ints.length then .ok (ints.set zp v, z) else .panic .dangling
      | none => .panic .dangling
    | _, _ => .panic .nilDeref

/-! ## Helpers of the repository that are not part of this file -/

/-- Modelled from the spec: `copyAddressPtr`, the optional-address copy helper
(declared in another file of the package): "nil stays nil, present value is
duplicated". -/
def copyAddressPtr (addrs : List Address) (a : Option Ptr) :
    Result (List Address × Option Ptr) :=
  match a with
  | none => .ok (addrs, none)
  | some p =>
    match addrs[p]? with
    | some v => .ok (addrs ++ [v], some addrs.length)
    | none => .panic .dangling

/-- The bytes a slice header denotes. -/
def sliceBytes (arrs : List (List Nat)) (s : Slice) : Option (List Nat) :=
  match arrs[s.arr]? with
  | some a => if s.off + s.len ≤ a.length then some ((a.drop s.off).take s.len) else none
  | none => none

/-- Modelled from the spec: `common.CopyBytes`, the byte-sequence deep-copy
helper (package `common`): the sequence is "duplicated element-wise" into a
new backing array; the nil slice stays nil. -/
def CopyBytes (arrs : List (List Nat)) (b : Option Slice) :
    Result (List (List Nat) × Option Slice) :=
  match b with
  | none => .ok (arrs, none)
  | some s =>
    match sliceBytes arrs s with
    | some bs => .ok (arrs ++ [bs], some ⟨arrs.length, 0, s.len⟩)
    | none => .panic .dangling

/-- Modelled from the spec: `common.Big0`, the fixed zero-valued integer
sentinel (package `common`).  It is a package-level `*big.Int`; here it is
location 0 of the integer store. -/
def Big0 : Option Ptr := some 0

/-- The sentinel `common.Big0` holds zero. -/
def Big0Zero (h : Heap) : Prop := h.ints[0]? = some 0

instance (h : Heap) : Decidable (Big0Zero h) :=
  inferInstanceAs (Decidable (h.ints[0]? = some 0))

/-- One element of an `AccessList`. -/
structure AccessTuple where
  Address : Address
  StorageKeys : List (List Nat)
  deriving DecidableEq, Repr

/-- The type `AccessList`, a slice of access tuples; `none` is the nil slice. -/
abbrev AccessList := Option (List AccessTuple)

/-- Go `len` of an access list (the nil slice has length 0). -/
def AccessList.len (al : AccessList) : Nat :=
  match al with
  | none => 0
  | some l => l.length

/-- The type of the shared chain-ID derivation `deriveChainId(v *big.Int) *big.Int`
(declared in another file of the package).  It is a parameter of `chainID`:
it sees the integer store and the pointer it is given, and returns a
pointer together with the integer store it leaves. -/
abbrev DeriveChainId := List Int → Option Ptr → Result (List Int × Option Ptr)

/-! ## copy -/

/-- The statement `if x != nil { z.Set(x) }` of `copy`. -/
def setIfPresent (ints : List Int) (z x : Option Ptr) : Result (List Int) :=
  match x with
  | none => .ok ints
  | some _ =>
    match bigSet ints z x with
    | .ok (ints1, _) => .ok ints1
    | .panic f => .panic f

/-- Method `func (tx *DepositTx) copy() TxData`. -/
def copy (h : Heap) (tx : Ptr) : Result (Heap × Ptr) :=
  match loadTx h tx with
  | .panic f => .panic f
  | .ok t =>
  match copyAddressPtr h.addrs t.To with
  | .panic f => .panic f
  | .ok (addrs1, to1) =>
  match CopyBytes h.arrs t.Data with
  | .panic f => .panic f
  | .ok (arrs1, data1) =>
  let (i1, value) := newInt h.ints
  let (i2, gasPrice) := newInt i1
  let (i3, v) := newInt i2
  let (i4, r) := newInt i3
  let (i5, s) := newInt i4
  let cpy : DepositTx :=
    { Nonce := t.Nonce, To := to1, Data := data1, Gas := t.Gas,
      Value := value, GasPrice := gasPrice, V := v, R := r, S := s }
  let txs1 := h.txs ++ [cpy]
  let c := h.txs.length
  match setIfPresent i5 cpy.Value t.Value with
  | .panic f => .panic f
  | .ok i6 =>
  match setIfPresent i6 cpy.GasPrice t.GasPrice with
  | .panic f => .panic f
  | .ok i7 =>
  match setIfPresent i7 cpy.V t.V with
  | .panic f => .panic f
  | .ok i8 =>
  match setIfPresent i8 cpy.R t.R with
  | .panic f => .panic f
  | .ok i9 =>
  match setIfPresent i9 cpy.S t.S with
  | .panic f => .panic f
  | .ok i10 =>
  .ok ({ ints := i10, addrs := addrs1, arrs := arrs1, txs := txs1 }, c)

/-! ## Accessors -/

/-- Method `func (tx *DepositTx) txType() byte`; the constant `DepositTxType` is
declared in another file and is a parameter here. -/
def txType (DepositTxType : Nat) (_h : Heap) (_tx : Ptr) : Result Nat :=
  .ok DepositTxType

/-- Method `func (tx *DepositTx) chainID() *big.Int`. -/
def chainID (deriveChainId : DeriveChainId) (h : Heap) (tx : Ptr) :
    Result (Heap × Option Ptr) :=
  match loadTx h tx with
  | .panic f => .panic f
  | .ok t =>
    match deriveChainId h.ints t.V with
    | .panic f => .panic f
    | .ok (ints1, c) => .ok ({ h with ints := ints1 }, c)

/-- Method `func (tx *DepositTx) accessList() AccessList`. -/
def accessList (_h : Heap) (_tx : Ptr) : Result AccessList :=
  .ok none

/-- Method `func (tx *DepositTx) data() []byte`. -/
def data (h : Heap) (tx : Ptr) : Result (Option Slice) :=
  match loadTx h tx with
  | .panic f => .panic f
  | .ok t => .ok t.Data

/-- Method `func (tx *DepositTx) gas() uint64`. -/
def gas (h : Heap) (tx : Ptr) : Result Nat :=
  match loadTx h tx with
  | .panic f => .panic f
  | .ok t => .ok t.Gas

/-- Method `func (tx *DepositTx) gasPrice() *big.Int`. -/
def gasPrice (h : Heap) (tx : Ptr) : Result (Option Ptr) :=
  match loadTx h tx with
  | .panic f => .panic f
  | .ok t => .ok t.GasPrice

/-- Method `func (tx *DepositTx) gasTipCap() *big.Int`. -/
def gasTipCap (h : Heap) (tx : Ptr) : Result (Option Ptr) :=
  match loadTx h tx with
  | .panic f => .panic f
  | .ok t => .ok t.GasPrice

/-- Method `func (tx *DepositTx) gasFeeCap() *big.Int`. -/
def gasFeeCap (h : Heap) (tx : Ptr) : Result (Option Ptr) :=
  match loadTx h tx with
  | .panic f => .panic f
  | .ok t => .ok t.GasPrice

/-- Method `func (tx *DepositTx) value() *big.Int`. -/
def value (h : Heap) (tx : Ptr) : Result (Option Ptr) :=
  match loadTx h tx with
  | .panic f => .panic f
  | .ok t => .ok t.Value

/-- Method `func (tx *DepositTx) nonce() uint64`. -/
def nonce (h : Heap) (tx : Ptr) : Result Nat :=
  match loadTx h tx with
  | .panic f => .panic f
  | .ok t => .ok t.Nonce

/-- Method `func (tx *DepositTx) to() *common.Address`. -/
def «to» (h : Heap) (tx : Ptr) : Result (Option Ptr) :=
  match loadTx h tx with
  | .panic f => .panic f
  | .ok t => .ok t.To

/-- Method `func (tx *DepositTx) effectiveGasPrice(dst *big.Int, baseFee *big.Int) *big.Int`:
`return dst.Set(tx.GasPrice)`. -/
def effectiveGasPrice (h : Heap) (tx : Ptr) (dst _baseFee : Option Ptr) :
    Result (Heap × Option Ptr) :=
  match loadTx h tx with
  | .panic f => .panic f
  | .ok t =>
    match bigSet h.ints dst t.GasPrice with
    | .panic f => .panic f
    | .ok (ints1, r) => .ok ({ h with ints := ints1 }, r)

/-- Method `func (tx *DepositTx) rawSignatureValues() (v, r, s *big.Int)`. -/
def rawSignatureValues (_h : Heap) (_tx : Ptr) :
    Result (Option Ptr × Option Ptr × Option Ptr) :=
  .ok (Big0, Big0, Big0)

/-- Method `func (tx *DepositTx) setSignatureValues(chainID, v, r, s *big.Int)`:
`tx.V, tx.R, tx.S = v, r, s`. -/
def setSignatureValues (h : Heap) (tx : Ptr) (_chainID v r s : Option Ptr) : Result Heap :=
  match loadTx h tx with
  | .panic f => .panic f
  | .ok t => .ok { h with txs := h.txs.set tx { t with V := v, R := r, S := s } }

/-- Method `func (tx *DepositTx) encode(*bytes.Buffer) error`; the buffer is a
pointer, the returned `error` would be `none` for nil. -/
def encode (_h : Heap) (_tx : Ptr) (_b : Option Ptr) : Result (Option String) :=
  .panic (.explicit "encode called on DepositTx")

/-- Method `func (tx *DepositTx) decode([]byte) error`. -/
def decode (_h : Heap) (_tx : Ptr) (_input : Option Slice) : Result (Option String) :=
  .panic (.explicit "decode called on DepositTx")


/-! ## Observation of an instance -/

/-- The integer behind a `*big.Int` field: `none` for `nil`. -/
def readInt (ints : List Int) (p : Option Ptr) : Option Int :=
  match p with
  | none => none
  | some q => ints[q]?

/-- The address behind a `*common.Address` field: `none` for `nil`. -/
def readAddr (addrs : List Address) (p : Option Ptr) : Option Address :=
  match p with
  | none => none
  | some q => addrs[q]?

/-- The bytes behind a `[]byte` field: `none` for the nil slice. -/
def readBytes (arrs : List (List Nat)) (b : Option Slice) : Option (List Nat) :=
  match b with
  | none => none
  | some s => sliceBytes arrs s

/-- A pointer is nil or refers to one of the first `n` locations of a store. -/
def validPtr (n : Nat) (p : Option Ptr) : Prop :=
  match p with
  | none => True
  | some q => q < n

instance (n : Nat) (p : Option Ptr) : Decidable (validPtr n p) :=
  match p with
  | none => isTrue trivial
  | some q => inferInstanceAs (Decidable (q < n))

/-- A slice is nil or lies inside an allocated backing array. -/
def validSlice (arrs : List (List Nat)) (b : Option Slice) : Prop :=
  match b with
  | none => True
  | some s => (sliceBytes arrs s).isSome = true

instance (arrs : List (List Nat)) (b : Option Slice) : Decidable (validSlice arrs b) :=
  match b with
  | none => isTrue trivial
  | some s => inferInstanceAs (Decidable ((sliceBytes arrs s).isSome = true))

/-- Memory safety of an instance: every pointer it stores refers to an
allocated object of the heap (what Go guarantees of every pointer). -/
def WF (h : Heap) (t : DepositTx) : Prop :=
  validPtr h.ints.length t.GasPrice ∧ validPtr h.ints.length t.Value ∧
  validPtr h.ints.length t.V ∧ validPtr h.ints.length t.R ∧
  validPtr h.ints.length t.S ∧ validPtr h.addrs.length t.To ∧
  validSlice h.arrs t.Data

instance (h : Heap) (t : DepositTx) : Decidable (WF h t) :=
  inferInstanceAs (Decidable (_ ∧ _))

/-- The value of an instance with every pointer followed: what structural
(field for field) equality compares. -/
structure View where
  Nonce : Nat
  GasPrice : Option Int
  Gas : Nat
  To : Option Address
  Value : Option Int
  Data : Option (List Nat)
  V : Option Int
  R : Option Int
  S : Option Int
  deriving DecidableEq, Repr

/-- The view of the struct `t` in the heap `h`. -/
def view (h : Heap) (t : DepositTx) : View :=
  { Nonce := t.Nonce, GasPrice := readInt h.ints t.GasPrice, Gas := t.Gas,
    To := readAddr h.addrs t.To, Value := readInt h.ints t.Value,
    Data := readBytes h.arrs t.Data, V := readInt h.ints t.V,
    R := readInt h.ints t.R, S := readInt h.ints t.S }

/-- The view of the instance `tx` points to, `none` when `tx` is not allocated. -/
def viewAt (h : Heap) (tx : Ptr) : Option View :=
  match h.txs[tx]? with
  | some t => some (view h t)
  | none => none

/-- The struct `copy` allocates for the source struct `t` in the heap `h`. -/
def copyStruct (h : Heap) (t : DepositTx) : DepositTx :=
  { Nonce := t.Nonce, Gas := t.Gas,
    To := t.To.map (fun _ => h.addrs.length),
    Data := t.Data.map (fun s => ⟨h.arrs.length, 0, s.len⟩),
    Value := some h.ints.length, GasPrice := some (h.ints.length + 1),
    V := some (h.ints.length + 2), R := some (h.ints.length + 3),
    S := some (h.ints.length + 4) }

/-- The heap `copy` leaves for the source struct `t` in the heap `h`. -/
def copyHeap (h : Heap) (t : DepositTx) : Heap :=
  { ints := h.ints ++
      [(readInt h.ints t.Value).getD 0, (readInt h.ints t.GasPrice).getD 0,
       (readInt h.ints t.V).getD 0, (readInt h.ints t.R).getD 0,
       (readInt h.ints t.S).getD 0],
    addrs := h.addrs ++ (readAddr h.addrs t.To).toList,
    arrs := h.arrs ++ (readBytes h.arrs t.Data).toList,
    txs := h.txs ++ [copyStruct h t] }

/-- The numeric field `dst` of a copy against the field `src` of its source:
`dst` is present; it holds the source's value when `src` is present and 0
when `src` is nil. -/
def FreshOf (hs : Heap) (src : Option Ptr) (hc : Heap) (dst : Option Ptr) : Prop :=
  dst ≠ none ∧ (∀ v, readInt hs.ints src = some v → readInt hc.ints dst = some v) ∧
  (src = none → readInt hc.ints dst = some 0)

/-- A numeric field of the copy, observed as `dst`, against the same field of
the source, observed as `src`: equal when the source field is present, the
integer 0 when it is absent. -/
def CopiedNum (src dst : Option Int) : Prop :=
  (src ≠ none → dst = src) ∧ (src = none → dst = some 0)

/-! ## Mutations a holder of an instance can perform -/

/-- The five `*big.Int` fields. -/
inductive NumField where
  | GasPrice | Value | V | R | S
  deriving DecidableEq, Repr

/-- The pointer stored in a numeric field. -/
def NumField.get (t : DepositTx) : NumField → Option Ptr
  | .GasPrice => t.GasPrice
  | .Value => t.Value
  | .V => t.V
  | .R => t.R
  | .S => t.S

/-- A mutation of an instance `tx`: the one mutator of the contract, or an
in-place write through one of the pointers the instance stores. -/
inductive Mutation where
  /-- `tx.setSignatureValues(chainID, v, r, s)`. -/
  | setSig (chainID v r s : Option Ptr)
  /-- An in-place change of the integer behind a numeric field, as
  `tx.F.SetInt64(x)` does. -/
  | setInt (f : NumField) (x : Int)
  /-- An in-place change of the address, `*tx.To = a`. -/
  | setTo (a : Address)
  /-- An in-place change of one byte, `tx.Data[i] = b`. -/
  | setDataByte (i : Nat) (b : Nat)
  deriving DecidableEq, Repr

/-- The effect of a mutation of the instance `tx` on the heap. -/
def mutate (h : Heap) (tx : Ptr) (m : Mutation) : Result Heap :=
  match m with
  | .setSig c v r s => setSignatureValues h tx c v r s
  | .setInt f x =>
    match loadTx h tx with
    | .panic e => .panic e
    | .ok t =>
      match f.get t with
      | none => .panic .nilDeref
      | some p =>
        if p < h.ints.length then .ok { h with ints := h.ints.set p x }
        else .panic .dangling
  | .setTo a =>
    match loadTx h tx with
    | .panic e => .panic e
    | .ok t =>
      match t.To with
      | none => .panic .nilDeref
      | some p =>
        if p < h.addrs.length then .ok { h with addrs := h.addrs.set p a }
        else .panic .dangling
  | .setDataByte i b =>
    match loadTx h tx with
    | .panic e => .panic e
    | .ok t =>
      match t.Data with
      | none => .panic .outOfRange
      | some s =>
        if i < s.len then
          match h.arrs[s.arr]? with
          | some a => .ok { h with arrs := h.arrs.set s.arr (a.set (s.off + i) b) }
          | none => .panic .dangling
        else .panic .outOfRange

/-- Two structs share no pointee: no integer, address or backing array is
reachable from both. -/
def Separate (a b : DepositTx) : Prop :=
  (∀ f g p, NumField.get a f = some p → NumField.get b g ≠ some p) ∧
  (∀ p, a.To = some p → b.To ≠ some p) ∧
  (∀ s u, a.Data = some s → b.Data = some u → s.arr ≠ u.arr)

/-- What a call that returns a `*big.Int` leaves for a `deriveChainId` to be
compared with: the returned pointer and the integer store. -/
def intsOutcome (r : Result (Heap × Option Ptr)) : Result (List Int × Option Ptr) :=
  match r with
  | .ok (h, p) => .ok (h.ints, p)
  | .panic f => .panic f

/-- A stand-in for the chain-ID derivation, used where a concrete function is
needed: it allocates a fresh zero and fails on a nil argument. -/
def sampleDerive : DeriveChainId :=
  fun ints v =>
    match v with
    | none => .panic .nilDeref
    | some _ => .ok (ints ++ [0], some ints.length)

/-! ## Calls and the heap they leave -/

/-- The operations of the contract other than `setSignatureValues`, `encode`
and `decode`. -/
inductive Call where
  | copy | txType | chainID | accessList | data | gas | gasPrice | gasTipCap
  | gasFeeCap | value | nonce | to | rawSignatureValues
  | effectiveGasPrice (dst baseFee : Option Ptr)
  deriving DecidableEq, Repr

/-- Forget the returned value of a call that returns without writing: the
heap is the one the call was given. -/
def keepHeap {α : Type} (h : Heap) (r : Result α) : Result Heap :=
  match r with
  | .ok _ => .ok h
  | .panic f => .panic f

/-- Forget the returned value of a call that hands back a heap. -/
def newHeap {α : Type} (r : Result (Heap × α)) : Result Heap :=
  match r with
  | .ok (h, _) => .ok h
  | .panic f => .panic f

/-- The heap a call on the instance `tx` leaves.  The methods whose body
has no assignment and calls nothing return the heap they were given;
`copy`, `chainID` and `effectiveGasPrice` hand back the heap they built. -/
def heapAfter (deriveChainId : DeriveChainId) (DepositTxType : Nat) (h : Heap) (tx : Ptr)
    (call : Call) : Result Heap :=
  match call with
  | .copy => newHeap (DepositTx.copy h tx)
  | .txType => keepHeap h (DepositTx.txType DepositTxType h tx)
  | .chainID => newHeap (DepositTx.chainID deriveChainId h tx)
  | .accessList => keepHeap h (DepositTx.accessList h tx)
  | .data => keepHeap h (DepositTx.data h tx)
  | .gas => keepHeap h (DepositTx.gas h tx)
  | .gasPrice => keepHeap h (DepositTx.gasPrice h tx)
  | .gasTipCap => keepHeap h (DepositTx.gasTipCap h tx)
  | .gasFeeCap => keepHeap h (DepositTx.gasFeeCap h tx)
  | .value => keepHeap h (DepositTx.value h tx)
  | .nonce => keepHeap h (DepositTx.nonce h tx)
  | .to => keepHeap h (DepositTx.«to» h tx)
  | .rawSignatureValues => keepHeap h (DepositTx.rawSignatureValues h tx)
  | .effectiveGasPrice dst baseFee => newHeap (DepositTx.effectiveGasPrice h tx dst baseFee)

/-- A chain-ID derivation that writes to no integer that was allocated
before the call (it may allocate new ones). -/
def WritesNoOld (deriveChainId : DeriveChainId) : Prop :=
  ∀ ints v ints2 p, deriveChainId ints v = .ok (ints2, p) →
    ∀ q, q < ints.length → ints2[q]? = ints[q]?

/-- What a call other than `setSignatureValues` leaves of the instance `t`
between the heap `h` before and the heap `h2` after it. -/
def LeftAlone (deriveChainId : DeriveChainId) (h h2 : Heap) (t : DepositTx) (call : Call) :
    Prop :=
  match call with
  | .chainID => WritesNoOld deriveChainId → view h2 t = view h t
  | .effectiveGasPrice dst _ =>
    (∀ q, dst ≠ some q → h2.ints[q]? = h.ints[q]?) ∧ h2.addrs = h.addrs ∧
    h2.arrs = h.arrs ∧ readInt h2.ints t.GasPrice = readInt h.ints t.GasPrice ∧
    (∀ f, NumField.get t f = dst → dst ≠ none →
      readInt h2.ints (NumField.get t f) = readInt h.ints t.GasPrice) ∧
    ((∀ f q, NumField.get t f = some q → dst ≠ some q) → view h2 t = view h t)
  | _ => view h2 t = view h t

/-! ## Concrete instances -/

/-- The instance of the scenario: `Nonce=5, GasPrice=100, Gas=21000`, `To`
absent, `Value=0`, `Data` empty, no signature values. -/
def scenarioTx : DepositTx :=
  { Nonce := 5, GasPrice := some 1, Gas := 21000, To := none, Value := some 2,
    Data := some ⟨0, 0, 0⟩, V := none, R := none, S := none }

/-- A heap holding `scenarioTx` at location 0.  The integer store holds
`common.Big0`, the gas price 100, the value 0 and the integers 1, 7, 8, 9
that the scenario passes to `setSignatureValues`. -/
def scenarioHeap : Heap :=
  { ints := [0, 100, 0, 1, 7, 8, 9], addrs := [], arrs := [[]], txs := [scenarioTx] }

/-- An instance with every optional field absent. -/
def nilTx : DepositTx :=
  { Nonce := 0, GasPrice := none, Gas := 0, To := none, Value := none,
    Data := none, V := none, R := none, S := none }

/-- A heap holding `nilTx` at location 0, `common.Big0` and one more integer
(location 1, holding 42). -/
def nilHeap : Heap :=
  { ints := [0, 42], addrs := [], arrs := [], txs := [nilTx] }

/-- An instance with every optional field present: gas price 7, value 3,
recipient, three bytes of data (a window of a longer array), signature
values 27, 11, 12. -/
def fullTx : DepositTx :=
  { Nonce := 9, GasPrice := some 1, Gas := 50000, To := some 0, Value := some 2,
    Data := some ⟨0, 1, 3⟩, V := some 3, R := some 4, S := some 5 }

/-- A heap holding `fullTx` at location 0. -/
def fullHeap : Heap :=
  { ints := [0, 7, 3, 27, 11, 12], addrs := [⟨[1, 2, 3, 4, 5, 6, 7, 8, 9, 10, 11, 12, 13, 14, 15, 16, 17, 18, 19, 20]⟩],
    arrs := [[10, 20, 30, 40, 50]], txs := [fullTx] }

/-! ## Lemmas on the stores -/

theorem set_fresh (l pre post : List Int) (x a : Int) :
    (l ++ (pre ++ x :: post)).set (l.length + pre.length) a = l ++ (pre ++ a :: post) := by
  rw [← List.append_assoc, ← List.append_assoc, ← List.length_append]
  simp [List.set_append_right]

theorem getElem?_old {α : Type} (l r : List α) (p : Nat) (hp : p < l.length) :
    (l ++ r)[p]? = l[p]? := by
  simp [List.getElem?_append_left hp]

theorem setIfPresent_fresh (l pre post : List Int) (x : Option Ptr)
    (hx : validPtr l.length x) :
    setIfPresent (l ++ (pre ++ 0 :: post)) (some (l.length + pre.length)) x
      = .ok (l ++ (pre ++ ((readInt l x).getD 0) :: post)) := by
  cases x with
  | none => simp [setIfPresent, readInt]
  | some xp =>
    have hxp : xp < l.length := hx
    unfold Ptr at hxp
    have hne : ¬ (l.length + pre.length = xp) := by omega
    have hget : (l ++ (pre ++ 0 :: post))[xp]? = l[xp]? := getElem?_old _ _ _ hxp
    have hl : l[xp]? = some l[xp] := by simp [hxp]
    simp only [setIfPresent, bigSet, Option.some.injEq, hne, if_false, hget, hl]
    simp [readInt, hxp, set_fresh]


theorem copy_ints (l : List Int) (a b c d e : Option Ptr)
    (ha : validPtr l.length a) (hb : validPtr l.length b) (hc : validPtr l.length c)
    (hd : validPtr l.length d) (he : validPtr l.length e) :
    ∃ i6 i7 i8 i9,
      setIfPresent (l ++ [0] ++ [0] ++ [0] ++ [0] ++ [0]) (some l.length) a = .ok i6 ∧
      setIfPresent i6 (some (l ++ [0]).length) b = .ok i7 ∧
      setIfPresent i7 (some (l ++ [0] ++ [0]).length) c = .ok i8 ∧
      setIfPresent i8 (some (l ++ [0] ++ [0] ++ [0]).length) d = .ok i9 ∧
      setIfPresent i9 (some (l ++ [0] ++ [0] ++ [0] ++ [0]).length) e =
        .ok (l ++ [(readInt l a).getD 0, (readInt l b).getD 0, (readInt l c).getD 0,
                   (readInt l d).getD 0, (readInt l e).getD 0]) := by
  have h1 := setIfPresent_fresh l [] [0, 0, 0, 0] a ha
  have h2 := setIfPresent_fresh l [(readInt l a).getD 0] [0, 0, 0] b hb
  have h3 := setIfPresent_fresh l [(readInt l a).getD 0, (readInt l b).getD 0] [0, 0] c hc
  have h4 := setIfPresent_fresh l
    [(readInt l a).getD 0, (readInt l b).getD 0, (readInt l c).getD 0] [0] d hd
  have h5 := setIfPresent_fresh l
    [(readInt l a).getD 0, (readInt l b).getD 0, (readInt l c).getD 0, (readInt l d).getD 0]
    [] e he
  simp only [List.nil_append, List.cons_append, List.length_nil, List.length_cons,
    Nat.add_zero, Nat.zero_add, List.append_assoc, List.length_append, Nat.reduceAdd] at *
  exact ⟨_, _, _, _, h1, h2, h3, h4, h5⟩

theorem copy_ok (h : Heap) (tx : Ptr) (t : DepositTx)
    (ht : h.txs[tx]? = some t) (hwf : WF h t) :
    copy h tx = .ok (copyHeap h t, h.txs.length) := by
  obtain ⟨hg, hv, hV, hR, hS, hTo, hD⟩ := hwf
  obtain ⟨i6, i7, i8, i9, e1, e2, e3, e4, e5⟩ :=
    copy_ints h.ints t.Value t.GasPrice t.V t.R t.S hv hg hV hR hS
  have hto : copyAddressPtr h.addrs t.To
      = .ok (h.addrs ++ (readAddr h.addrs t.To).toList, t.To.map (fun _ => h.addrs.length)) := by
    cases hT : t.To with
    | none => simp [copyAddressPtr, readAddr]
    | some p =>
      rw [hT] at hTo
      have hp : p < h.addrs.length := hTo
      simp [copyAddressPtr, readAddr, hp]
  have hdata : CopyBytes h.arrs t.Data
      = .ok (h.arrs ++ (readBytes h.arrs t.Data).toList,
             t.Data.map (fun s => ⟨h.arrs.length, 0, s.len⟩)) := by
    cases hT : t.Data with
    | none => simp [CopyBytes, readBytes]
    | some s =>
      rw [hT] at hD
      have hs : (sliceBytes h.arrs s).isSome = true := hD
      obtain ⟨bs, hbs⟩ := Option.isSome_iff_exists.mp hs
      simp [CopyBytes, readBytes, hbs]
  simp only [copy, loadTx, ht, hto, hdata, newInt, e1, e2, e3, e4, e5]
  simp [copyHeap, copyStruct]


/-! ## The copy, observed -/

theorem readInt_old (l r : List Int) (p : Option Ptr) (hp : validPtr l.length p) :
    readInt (l ++ r) p = readInt l p := by
  cases p with
  | none => rfl
  | some q => exact getElem?_old l r q hp

theorem readAddr_old (l r : List Address) (p : Option Ptr) (hp : validPtr l.length p) :
    readAddr (l ++ r) p = readAddr l p := by
  cases p with
  | none => rfl
  | some q => exact getElem?_old l r q hp

theorem sliceBytes_old (l r : List (List Nat)) (s : Slice)
    (hs : (sliceBytes l s).isSome = true) : sliceBytes (l ++ r) s = sliceBytes l s := by
  have hlt : s.arr < l.length := by
    by_contra hge
    have hnone : l[s.arr]? = none := by
      apply List.getElem?_eq_none
      unfold Ptr at hge
      omega
    simp [sliceBytes, hnone] at hs
  simp only [sliceBytes, getElem?_old l r s.arr hlt]

theorem readBytes_old (l r : List (List Nat)) (b : Option Slice) (hb : validSlice l b) :
    readBytes (l ++ r) b = readBytes l b := by
  cases b with
  | none => rfl
  | some s => exact sliceBytes_old l r s hb

theorem readInt_fresh (l r : List Int) (k : Nat) :
    readInt (l ++ r) (some (l.length + k)) = r[k]? := by
  simp [readInt, List.getElem?_append_right]

theorem readInt_fresh0 (l r : List Int) :
    readInt (l ++ r) (some l.length) = r[0]? := by
  simpa using readInt_fresh l r 0

theorem readInt_isSome (l : List Int) (p : Ptr) (hp : validPtr l.length (some p)) :
    readInt l (some p) = some ((readInt l (some p)).getD 0) := by
  have hlt : p < l.length := hp
  simp [readInt, hlt]

theorem sliceBytes_length (arrs : List (List Nat)) (s : Slice) (bs : List Nat)
    (h : sliceBytes arrs s = some bs) : bs.length = s.len := by
  unfold sliceBytes at h
  split at h
  · split at h
    · rename_i a _ hle
      injection h with h
      subst h
      simp only [List.length_take, List.length_drop]
      omega
    · cases h
  · cases h

theorem sliceBytes_whole (arrs : List (List Nat)) (bs : List Nat) (n : Nat)
    (hn : bs.length = n) : sliceBytes (arrs ++ [bs]) ⟨arrs.length, 0, n⟩ = some bs := by
  simp [sliceBytes, hn]

/-- An instance allocated before the copy is observed unchanged after it. -/
theorem view_copyHeap_old (h : Heap) (t u : DepositTx) (hu : WF h u) :
    view (copyHeap h t) u = view h u := by
  obtain ⟨hg, hv, hV, hR, hS, hTo, hD⟩ := hu
  simp only [view, copyHeap, readInt_old _ _ _ hg, readInt_old _ _ _ hv, readInt_old _ _ _ hV,
    readInt_old _ _ _ hR, readInt_old _ _ _ hS, readAddr_old _ _ _ hTo, readBytes_old _ _ _ hD]

/-- The copy, observed: nil numeric fields read 0, everything else reads as
the source does. -/
theorem view_copy (h : Heap) (t : DepositTx) (hwf : WF h t) :
    view (copyHeap h t) (copyStruct h t) =
      { Nonce := t.Nonce, Gas := t.Gas, To := readAddr h.addrs t.To,
        Data := readBytes h.arrs t.Data,
        GasPrice := some ((readInt h.ints t.GasPrice).getD 0),
        Value := some ((readInt h.ints t.Value).getD 0),
        V := some ((readInt h.ints t.V).getD 0),
        R := some ((readInt h.ints t.R).getD 0),
        S := some ((readInt h.ints t.S).getD 0) } := by
  obtain ⟨hg, hv, hV, hR, hS, hTo, hD⟩ := hwf
  have hto : readAddr (h.addrs ++ (readAddr h.addrs t.To).toList)
      (t.To.map (fun _ => h.addrs.length)) = readAddr h.addrs t.To := by
    cases hT : t.To with
    | none => rfl
    | some p =>
      rw [hT] at hTo
      have hp : p < h.addrs.length := hTo
      simp [readAddr, hp]
  have hdata : readBytes (h.arrs ++ (readBytes h.arrs t.Data).toList)
      (t.Data.map (fun s => ⟨h.arrs.length, 0, s.len⟩)) = readBytes h.arrs t.Data := by
    cases hT : t.Data with
    | none => rfl
    | some s =>
      rw [hT] at hD
      have hs : (sliceBytes h.arrs s).isSome = true := hD
      obtain ⟨bs, hbs⟩ := Option.isSome_iff_exists.mp hs
      have hlen := sliceBytes_length _ _ _ hbs
      simp only [readBytes, hbs, Option.toList, Option.map]
      exact sliceBytes_whole h.arrs bs s.len hlen
  simp only [view, copyHeap, copyStruct, hto, hdata, readInt_fresh, readInt_fresh0]
  simp


theorem freshOf_of_read (hs hc : Heap) (src dst : Option Ptr)
    (hd : readInt hc.ints dst = some ((readInt hs.ints src).getD 0)) :
    FreshOf hs src hc dst := by
  refine ⟨?_, ?_, ?_⟩
  · intro hn
    rw [hn] at hd
    simp [readInt] at hd
  · intro v hv
    rw [hd, hv]
    rfl
  · intro hn
    rw [hd, hn]
    rfl

theorem copiedNum_of_read (l : List Int) (src : Option Ptr) (hsrc : validPtr l.length src) :
    CopiedNum (readInt l src) (some ((readInt l src).getD 0)) := by
  cases src with
  | none => exact ⟨fun hne => absurd rfl hne, fun _ => rfl⟩
  | some p =>
    have hp := readInt_isSome l p hsrc
    refine ⟨fun _ => hp.symm, fun hn => ?_⟩
    rw [hn] at hp
    cases hp

theorem txs_copyHeap_new (h : Heap) (t : DepositTx) :
    (copyHeap h t).txs[h.txs.length]? = some (copyStruct h t) := by
  simp [copyHeap]

theorem txs_copyHeap_old (h : Heap) (t : DepositTx) (tx : Ptr) (u : DepositTx)
    (hu : h.txs[tx]? = some u) : (copyHeap h t).txs[tx]? = some u := by
  have hlt : tx < h.txs.length := by
    by_contra hge
    have hnone : h.txs[tx]? = none := by
      apply List.getElem?_eq_none
      unfold Ptr at hge
      omega
    rw [hnone] at hu
    cases hu
  simp only [copyHeap, getElem?_old _ _ _ hlt, hu]

/-- The struct `copy` allocates is itself memory safe in the heap `copy`
leaves. -/
theorem wf_copyStruct (h : Heap) (t : DepositTx) (hwf : WF h t) :
    WF (copyHeap h t) (copyStruct h t) := by
  have hv := view_copy h t hwf
  have hTo : validPtr h.addrs.length t.To := hwf.2.2.2.2.2.1
  have hD : validSlice h.arrs t.Data := hwf.2.2.2.2.2.2
  refine ⟨?_, ?_, ?_, ?_, ?_, ?_, ?_⟩
  · show h.ints.length + 1 < (copyHeap h t).ints.length
    simp [copyHeap]
  · show h.ints.length < (copyHeap h t).ints.length
    simp [copyHeap]
  · show h.ints.length + 2 < (copyHeap h t).ints.length
    simp [copyHeap]
  · show h.ints.length + 3 < (copyHeap h t).ints.length
    simp [copyHeap]
  · show h.ints.length + 4 < (copyHeap h t).ints.length
    simp [copyHeap]
  · cases hT : t.To with
    | none => simp [copyStruct, hT, validPtr]
    | some p =>
      rw [hT] at hTo
      have hp : p < h.addrs.length := hTo
      simp [copyStruct, copyHeap, hT, validPtr, readAddr, hp]
  · cases hT : t.Data with
    | none => simp [copyStruct, hT, validSlice]
    | some s =>
      have hd := congrArg View.Data hv
      simp only [view, copyStruct, hT, Option.map, readBytes] at hd
      rw [hT] at hD
      have hs : (sliceBytes h.arrs s).isSome = true := hD
      simp only [copyStruct, hT, Option.map, validSlice, hd]
      exact hs

/-- C1: for every instance `t` (an allocated struct whose pointers are valid),
`copy` returns a new instance whose five numeric fields `Value`, `GasPrice`,
`V`, `R`, `S` are all present (not nil); each holds the value of the source
field when that is present and the integer 0 when the source field is nil. -/
theorem copy_numeric_fields_present (h : Heap) (tx : Ptr) (t : DepositTx)
    (ht : h.txs[tx]? = some t) (hwf : WF h t) :
    ∃ h' c cs, copy h tx = .ok (h', c) ∧ h'.txs[c]? = some cs ∧
      FreshOf h t.Value h' cs.Value ∧ FreshOf h t.GasPrice h' cs.GasPrice ∧
      FreshOf h t.V h' cs.V ∧ FreshOf h t.R h' cs.R ∧ FreshOf h t.S h' cs.S := by
  have hv := view_copy h t hwf
  exact ⟨copyHeap h t, h.txs.length, copyStruct h t, copy_ok h tx t ht hwf,
    txs_copyHeap_new h t,
    freshOf_of_read _ _ _ _ (congrArg View.Value hv),
    freshOf_of_read _ _ _ _ (congrArg View.GasPrice hv),
    freshOf_of_read _ _ _ _ (congrArg View.V hv),
    freshOf_of_read _ _ _ _ (congrArg View.R hv),
    freshOf_of_read _ _ _ _ (congrArg View.S hv)⟩

/-- C1, at a concrete input: the instance with every optional field nil. -/
theorem copy_numeric_fields_present_witness :
    nilHeap.txs[0]? = some nilTx ∧ WF nilHeap nilTx ∧
    ∃ h' c cs, copy nilHeap 0 = .ok (h', c) ∧ h'.txs[c]? = some cs ∧
      FreshOf nilHeap nilTx.Value h' cs.Value ∧ FreshOf nilHeap nilTx.GasPrice h' cs.GasPrice ∧
      FreshOf nilHeap nilTx.V h' cs.V ∧ FreshOf nilHeap nilTx.R h' cs.R ∧
      FreshOf nilHeap nilTx.S h' cs.S :=
  ⟨by decide, by decide, copy_numeric_fields_present nilHeap 0 nilTx (by decide) (by decide)⟩

/-- C2, refuted at a concrete input: the copy of the instance with every
optional field nil has its five numeric fields present (holding 0), so it is
not field for field equal to its source, whose numeric fields are absent. -/
theorem copy_of_absent_numeric_not_equal :
    copy nilHeap 0 =
      .ok (⟨[0, 42, 0, 0, 0, 0, 0], [], [],
            [nilTx, ⟨0, some 3, 0, none, some 2, none, some 4, some 5, some 6⟩]⟩, 1) ∧
    viewAt ⟨[0, 42, 0, 0, 0, 0, 0], [], [],
            [nilTx, ⟨0, some 3, 0, none, some 2, none, some 4, some 5, some 6⟩]⟩ 1 =
      some ⟨0, some 0, 0, none, some 0, none, some 0, some 0, some 0⟩ ∧
    viewAt ⟨[0, 42, 0, 0, 0, 0, 0], [], [],
            [nilTx, ⟨0, some 3, 0, none, some 2, none, some 4, some 5, some 6⟩]⟩ 0 =
      some ⟨0, none, 0, none, none, none, none, none, none⟩ := by
  decide

/-- C2, amended: for every instance `t`, over all field combinations, `copy`
returns a new instance that, observed right after the copy, equals `t` in
`Nonce`, `Gas`, `To` and `Data` and in each of `GasPrice`, `Value`, `V`, `R`,
`S` that is present in `t`; a numeric field that is absent in `t` holds 0 in
the copy.  When all five numeric fields of `t` are present the copy is
structurally equal to `t`. -/
theorem copy_equal_up_to_absent_numeric (h : Heap) (tx : Ptr) (t : DepositTx)
    (ht : h.txs[tx]? = some t) (hwf : WF h t) :
    ∃ h' c cs, copy h tx = .ok (h', c) ∧ h'.txs[c]? = some cs ∧ h'.txs[tx]? = some t ∧
      (view h' cs).Nonce = (view h' t).Nonce ∧ (view h' cs).Gas = (view h' t).Gas ∧
      (view h' cs).To = (view h' t).To ∧ (view h' cs).Data = (view h' t).Data ∧
      CopiedNum (view h' t).GasPrice (view h' cs).GasPrice ∧
      CopiedNum (view h' t).Value (view h' cs).Value ∧
      CopiedNum (view h' t).V (view h' cs).V ∧
      CopiedNum (view h' t).R (view h' cs).R ∧
      CopiedNum (view h' t).S (view h' cs).S ∧
      (t.GasPrice ≠ none → t.Value ≠ none → t.V ≠ none → t.R ≠ none → t.S ≠ none →
        view h' cs = view h' t) := by
  have hv := view_copy h t hwf
  have ho := view_copyHeap_old h t t hwf
  obtain ⟨hg, hval, hV, hR, hS, -, -⟩ := id hwf
  refine ⟨copyHeap h t, h.txs.length, copyStruct h t, copy_ok h tx t ht hwf,
    txs_copyHeap_new h t, txs_copyHeap_old h t tx t ht, ?_⟩
  rw [hv, ho]
  refine ⟨rfl, rfl, rfl, rfl, copiedNum_of_read _ _ hg, copiedNum_of_read _ _ hval,
    copiedNum_of_read _ _ hV, copiedNum_of_read _ _ hR, copiedNum_of_read _ _ hS, ?_⟩
  intro h1 h2 h3 h4 h5
  obtain ⟨pg, hpg⟩ := Option.ne_none_iff_exists'.mp h1
  obtain ⟨pv, hpv⟩ := Option.ne_none_iff_exists'.mp h2
  obtain ⟨pV, hpV⟩ := Option.ne_none_iff_exists'.mp h3
  obtain ⟨pR, hpR⟩ := Option.ne_none_iff_exists'.mp h4
  obtain ⟨pS, hpS⟩ := Option.ne_none_iff_exists'.mp h5
  rw [hpg] at hg
  rw [hpv] at hval
  rw [hpV] at hV
  rw [hpR] at hR
  rw [hpS] at hS
  simp only [view, hpg, hpv, hpV, hpR, hpS, ← readInt_isSome _ _ hg, ← readInt_isSome _ _ hval,
    ← readInt_isSome _ _ hV, ← readInt_isSome _ _ hR, ← readInt_isSome _ _ hS]

/-- C2 amended, at a concrete input: the instance with every optional field
present, whose copy is structurally equal to it. -/
theorem copy_equal_up_to_absent_numeric_witness :
    fullHeap.txs[0]? = some fullTx ∧ WF fullHeap fullTx ∧
    ∃ h' c cs, copy fullHeap 0 = .ok (h', c) ∧ h'.txs[c]? = some cs ∧
      h'.txs[0]? = some fullTx ∧
      (view h' cs).Nonce = (view h' fullTx).Nonce ∧ (view h' cs).Gas = (view h' fullTx).Gas ∧
      (view h' cs).To = (view h' fullTx).To ∧ (view h' cs).Data = (view h' fullTx).Data ∧
      CopiedNum (view h' fullTx).GasPrice (view h' cs).GasPrice ∧
      CopiedNum (view h' fullTx).Value (view h' cs).Value ∧
      CopiedNum (view h' fullTx).V (view h' cs).V ∧
      CopiedNum (view h' fullTx).R (view h' cs).R ∧
      CopiedNum (view h' fullTx).S (view h' cs).S ∧
      (fullTx.GasPrice ≠ none → fullTx.Value ≠ none → fullTx.V ≠ none → fullTx.R ≠ none →
        fullTx.S ≠ none → view h' cs = view h' fullTx) :=
  ⟨by decide, by decide,
    copy_equal_up_to_absent_numeric fullHeap 0 fullTx (by decide) (by decide)⟩


/-! ## Frame of a mutation -/

theorem readInt_set_ne (l : List Int) (p : Ptr) (x : Int) (q : Option Ptr)
    (hq : q ≠ some p) : readInt (l.set p x) q = readInt l q := by
  cases q with
  | none => rfl
  | some r =>
    have hne : p ≠ r := fun e => hq (by rw [e])
    simp [readInt, List.getElem?_set_ne hne]

theorem readAddr_set_ne (l : List Address) (p : Ptr) (x : Address) (q : Option Ptr)
    (hq : q ≠ some p) : readAddr (l.set p x) q = readAddr l q := by
  cases q with
  | none => rfl
  | some r =>
    have hne : p ≠ r := fun e => hq (by rw [e])
    simp [readAddr, List.getElem?_set_ne hne]

theorem readBytes_set_ne (l : List (List Nat)) (k : Ptr) (x : List Nat) (b : Option Slice)
    (hb : ∀ u, b = some u → k ≠ u.arr) : readBytes (l.set k x) b = readBytes l b := by
  cases b with
  | none => rfl
  | some u =>
    have hne : k ≠ u.arr := hb u rfl
    simp [readBytes, sliceBytes, List.getElem?_set_ne hne]

theorem view_numFields (h k : Heap) (t : DepositTx)
    (hn : ∀ g, readInt k.ints (NumField.get t g) = readInt h.ints (NumField.get t g))
    (ha : readAddr k.addrs t.To = readAddr h.addrs t.To)
    (hb : readBytes k.arrs t.Data = readBytes h.arrs t.Data) : view k t = view h t := by
  have h1 := hn .GasPrice
  have h2 := hn .Value
  have h3 := hn .V
  have h4 := hn .R
  have h5 := hn .S
  simp only [NumField.get] at h1 h2 h3 h4 h5
  simp only [view, h1, h2, h3, h4, h5, ha, hb]

theorem Separate.symm {a b : DepositTx} (hs : Separate a b) : Separate b a := by
  obtain ⟨h1, h2, h3⟩ := hs
  refine ⟨?_, ?_, ?_⟩
  · intro f g p hf hg
    exact h1 g f p hg hf
  · intro p hp hq
    exact h2 p hq hp
  · intro s u hs hu e
    exact h3 u s hu hs e.symm

/-- A mutation of the instance at `a` leaves a separate instance at another
location `b` as it was: the struct and everything it points to. -/
theorem mutate_frame (h : Heap) (a b : Ptr) (ta tb : DepositTx) (m : Mutation) (h2 : Heap)
    (ha : h.txs[a]? = some ta) (hb : h.txs[b]? = some tb) (hab : a ≠ b)
    (hsep : Separate ta tb) (hm : mutate h a m = .ok h2) :
    h2.txs[b]? = some tb ∧ view h2 tb = view h tb := by
  obtain ⟨s1, s2, s3⟩ := hsep
  cases m with
  | setSig c v r s =>
    simp only [mutate, setSignatureValues, loadTx, ha, Result.ok.injEq] at hm
    subst hm
    exact ⟨by simp [List.getElem?_set_ne hab, hb], rfl⟩
  | setInt f x =>
    simp only [mutate, loadTx, ha] at hm
    cases hp : NumField.get ta f with
    | none => simp [hp] at hm
    | some p =>
      simp only [hp] at hm
      split at hm
      · injection hm with hm
        subst hm
        refine ⟨hb, view_numFields _ _ _ ?_ rfl rfl⟩
        intro g
        exact readInt_set_ne _ _ _ _ (s1 f g p hp)
      · cases hm
  | setTo x =>
    simp only [mutate, loadTx, ha] at hm
    cases hp : ta.To with
    | none => simp [hp] at hm
    | some p =>
      simp only [hp] at hm
      split at hm
      · injection hm with hm
        subst hm
        exact ⟨hb, view_numFields _ _ _ (fun _ => rfl) (readAddr_set_ne _ _ _ _ (s2 p hp)) rfl⟩
      · cases hm
  | setDataByte i x =>
    simp only [mutate, loadTx, ha] at hm
    cases hp : ta.Data with
    | none => simp [hp] at hm
    | some s =>
      simp only [hp] at hm
      split at hm
      · split at hm
        · injection hm with hm
          subst hm
          exact ⟨hb, view_numFields _ _ _ (fun _ => rfl) rfl
            (readBytes_set_ne _ _ _ _ (fun u hu => s3 s u hp hu))⟩
        · cases hm
      · cases hm


/-! ## Independence of the copy -/

theorem validPtr_get (h : Heap) (t : DepositTx) (hwf : WF h t) (g : NumField) :
    validPtr h.ints.length (NumField.get t g) := by
  obtain ⟨hg, hv, hV, hR, hS, -, -⟩ := hwf
  cases g <;> assumption

theorem copyStruct_get_ge (h : Heap) (t : DepositTx) (f : NumField) (p : Ptr)
    (hp : NumField.get (copyStruct h t) f = some p) : h.ints.length ≤ p := by
  cases f <;> simp only [NumField.get, copyStruct, Option.some.injEq] at hp <;> subst hp <;> simp

theorem arr_lt_of_validSlice (arrs : List (List Nat)) (u : Slice)
    (hu : validSlice arrs (some u)) : u.arr < arrs.length := by
  have hs : (sliceBytes arrs u).isSome = true := hu
  by_contra hge
  have hnone : arrs[u.arr]? = none := by
    apply List.getElem?_eq_none
    unfold Ptr at hge
    omega
  simp [sliceBytes, hnone] at hs

/-- The struct `copy` allocates shares no pointee with its source. -/
theorem separate_copyStruct (h : Heap) (t : DepositTx) (hwf : WF h t) :
    Separate (copyStruct h t) t := by
  refine ⟨?_, ?_, ?_⟩
  · intro f g p hf hg
    have hge := copyStruct_get_ge h t f p hf
    have hv := validPtr_get h t hwf g
    rw [hg] at hv
    have hlt : p < h.ints.length := hv
    unfold Ptr at hlt hge
    omega
  · intro p hp hq
    have hv : validPtr h.addrs.length t.To := hwf.2.2.2.2.2.1
    rw [hq] at hv
    have hlt : p < h.addrs.length := hv
    simp only [copyStruct, hq, Option.map, Option.some.injEq] at hp
    unfold Ptr at hlt hp
    omega
  · intro s u hs hu e
    have hv : validSlice h.arrs t.Data := hwf.2.2.2.2.2.2
    rw [hu] at hv
    have hlt := arr_lt_of_validSlice _ _ hv
    simp only [copyStruct, hu, Option.map, Option.some.injEq] at hs
    subst hs
    simp only at e
    unfold Ptr at hlt e
    omega

theorem lt_of_getElem?_eq_some {α : Type} (l : List α) (i : Nat) (a : α)
    (hi : l[i]? = some a) : i < l.length := by
  by_contra hge
  have hnone : l[i]? = none := List.getElem?_eq_none (by omega)
  rw [hnone] at hi
  cases hi

/-- C3: for every instance `t` and `c = copy(t)`: any later mutation of `c`
(`setSignatureValues` with any arguments, or an in-place change of a numeric
field, of the `To` address or of a byte of `Data`) leaves the struct `t` and
everything it points to unchanged, and any such mutation of `t` leaves the
struct `c` and everything it points to unchanged. -/
theorem copy_independent (h : Heap) (tx : Ptr) (t : DepositTx)
    (ht : h.txs[tx]? = some t) (hwf : WF h t) :
    (∃ h' c, copy h tx = .ok (h', c)) ∧
    ∀ h' c, copy h tx = .ok (h', c) →
      ∃ cs, h'.txs[c]? = some cs ∧ h'.txs[tx]? = some t ∧ view h' t = view h t ∧
        ∀ m h2,
          (mutate h' c m = .ok h2 → h2.txs[tx]? = some t ∧ view h2 t = view h' t) ∧
          (mutate h' tx m = .ok h2 → h2.txs[c]? = some cs ∧ view h2 cs = view h' cs) := by
  have hc := copy_ok h tx t ht hwf
  refine ⟨⟨_, _, hc⟩, ?_⟩
  intro h' c hcopy
  rw [hc] at hcopy
  injection hcopy with hcopy
  injection hcopy with e1 e2
  subst e1
  subst e2
  have hnew := txs_copyHeap_new h t
  have hold := txs_copyHeap_old h t tx t ht
  have hlt := lt_of_getElem?_eq_some _ _ _ ht
  have hne : h.txs.length ≠ tx := by
    unfold Ptr at hlt
    omega
  have hsep := separate_copyStruct h t hwf
  refine ⟨copyStruct h t, hnew, hold, view_copyHeap_old h t t hwf, ?_⟩
  intro m h2
  exact ⟨fun hm => mutate_frame _ _ _ _ _ m h2 hnew hold hne hsep hm,
    fun hm => mutate_frame _ _ _ _ _ m h2 hold hnew (Ne.symm hne) hsep.symm hm⟩

/-- C3, at the input of the scenario: `Nonce=5, GasPrice=100, Gas=21000`,
`To` absent, `Value=0`, `Data` empty. -/
theorem copy_independent_witness :
    scenarioHeap.txs[0]? = some scenarioTx ∧ WF scenarioHeap scenarioTx ∧
    (∃ h' c, copy scenarioHeap 0 = .ok (h', c)) ∧
    ∀ h' c, copy scenarioHeap 0 = .ok (h', c) →
      ∃ cs, h'.txs[c]? = some cs ∧ h'.txs[0]? = some scenarioTx ∧
        view h' scenarioTx = view scenarioHeap scenarioTx ∧
        ∀ m h2,
          (mutate h' c m = .ok h2 →
            h2.txs[0]? = some scenarioTx ∧ view h2 scenarioTx = view h' scenarioTx) ∧
          (mutate h' 0 m = .ok h2 → h2.txs[c]? = some cs ∧ view h2 cs = view h' cs) :=
  ⟨by decide, by decide, copy_independent scenarioHeap 0 scenarioTx (by decide) (by decide)⟩

/-- The scenario, evaluated: the copy of the instance is allocated at
location 1; `setSignatureValues(1, 7, 8, 9)` on the copy stores the three
pointers in the copy and leaves the original struct and its view as they
were; `rawSignatureValues` of the copy is still three times `common.Big0`. -/
theorem scenario_evaluated :
    copy scenarioHeap 0 =
      .ok (⟨[0, 100, 0, 1, 7, 8, 9, 0, 100, 0, 0, 0], [], [[], []],
            [scenarioTx, ⟨5, some 8, 21000, none, some 7, some ⟨1, 0, 0⟩,
              some 9, some 10, some 11⟩]⟩, 1) ∧
    setSignatureValues
        ⟨[0, 100, 0, 1, 7, 8, 9, 0, 100, 0, 0, 0], [], [[], []],
          [scenarioTx, ⟨5, some 8, 21000, none, some 7, some ⟨1, 0, 0⟩,
            some 9, some 10, some 11⟩]⟩ 1 (some 3) (some 4) (some 5) (some 6) =
      .ok ⟨[0, 100, 0, 1, 7, 8, 9, 0, 100, 0, 0, 0], [], [[], []],
            [scenarioTx, ⟨5, some 8, 21000, none, some 7, some ⟨1, 0, 0⟩,
              some 4, some 5, some 6⟩]⟩ ∧
    viewAt ⟨[0, 100, 0, 1, 7, 8, 9, 0, 100, 0, 0, 0], [], [[], []],
            [scenarioTx, ⟨5, some 8, 21000, none, some 7, some ⟨1, 0, 0⟩,
              some 4, some 5, some 6⟩]⟩ 0 = viewAt scenarioHeap 0 ∧
    viewAt scenarioHeap 0 = some ⟨5, some 100, 21000, none, some 0, some [], none, none, none⟩ ∧
    rawSignatureValues ⟨[0, 100, 0, 1, 7, 8, 9, 0, 100, 0, 0, 0], [], [[], []],
            [scenarioTx, ⟨5, some 8, 21000, none, some 7, some ⟨1, 0, 0⟩,
              some 4, some 5, some 6⟩]⟩ 1 = .ok (some 0, some 0, some 0) := by
  decide


/-! ## Signature slots -/

theorem setSignatureValues_ok (h : Heap) (tx : Ptr) (t : DepositTx)
    (ht : h.txs[tx]? = some t) (chainID v r s : Option Ptr) :
    setSignatureValues h tx chainID v r s =
      .ok { h with txs := h.txs.set tx { t with V := v, R := r, S := s } } := by
  simp only [setSignatureValues, loadTx, ht]

theorem txs_set_self (h : Heap) (tx : Ptr) (t u : DepositTx) (ht : h.txs[tx]? = some t) :
    (h.txs.set tx u)[tx]? = some u := by
  have hlt := lt_of_getElem?_eq_some _ _ _ ht
  simp [hlt]

/-- C4, refuted at a concrete input: the three pointers `rawSignatureValues`
returns are the shared sentinel `common.Big0`.  On the instance with gas
price 7, `effectiveGasPrice` with that pointer as `dst` writes 7 into the
sentinel; after it, and after a `setSignatureValues`, the triple that
`rawSignatureValues` returns reads (7, 7, 7), not (0, 0, 0). -/
theorem rawSignatureValues_after_overwrite :
    Big0Zero fullHeap ∧ rawSignatureValues fullHeap 0 = .ok (some 0, some 0, some 0) ∧
    effectiveGasPrice fullHeap 0 (some 0) none =
      .ok (⟨[7, 7, 3, 27, 11, 12], fullHeap.addrs, fullHeap.arrs, [fullTx]⟩, some 0) ∧
    setSignatureValues ⟨[7, 7, 3, 27, 11, 12], fullHeap.addrs, fullHeap.arrs, [fullTx]⟩ 0
        none (some 3) (some 4) (some 5) =
      .ok ⟨[7, 7, 3, 27, 11, 12], fullHeap.addrs, fullHeap.arrs, [fullTx]⟩ ∧
    rawSignatureValues ⟨[7, 7, 3, 27, 11, 12], fullHeap.addrs, fullHeap.arrs, [fullTx]⟩ 0 =
      .ok (some 0, some 0, some 0) ∧
    readInt [7, 7, 3, 27, 11, 12] (some 0) = some 7 := by
  decide

/-- C4, amended: for every instance and all `chainID, v, r, s`,
`rawSignatureValues`, before and after `setSignatureValues(chainID, v, r, s)`
and whatever the stored `V, R, S` are, returns three times the shared
sentinel `common.Big0`; `setSignatureValues` leaves what the sentinel holds
as it was, so the triple reads (0, 0, 0) whenever the sentinel holds 0. -/
theorem rawSignatureValues_sentinel (h : Heap) (tx : Ptr) (t : DepositTx)
    (ht : h.txs[tx]? = some t) (chainID v r s : Option Ptr) :
    rawSignatureValues h tx = .ok (Big0, Big0, Big0) ∧
    (Big0Zero h → readInt h.ints Big0 = some 0) ∧
    ∃ h2, setSignatureValues h tx chainID v r s = .ok h2 ∧
      (∃ t2, h2.txs[tx]? = some t2 ∧ t2.V = v ∧ t2.R = r ∧ t2.S = s) ∧
      rawSignatureValues h2 tx = .ok (Big0, Big0, Big0) ∧
      readInt h2.ints Big0 = readInt h.ints Big0 ∧
      (Big0Zero h → ∃ pv pr ps, rawSignatureValues h2 tx = .ok (pv, pr, ps) ∧
        readInt h2.ints pv = some 0 ∧ readInt h2.ints pr = some 0 ∧
        readInt h2.ints ps = some 0) := by
  refine ⟨rfl, fun hz => hz, _, setSignatureValues_ok h tx t ht chainID v r s, ?_, rfl, rfl, ?_⟩
  · exact ⟨_, txs_set_self h tx t _ ht, rfl, rfl, rfl⟩
  · intro hz
    have hz0 : readInt h.ints Big0 = some 0 := hz
    exact ⟨Big0, Big0, Big0, rfl, hz0, hz0, hz0⟩

/-- C4 amended, at a concrete input: the scenario instance, signed with
pointers to the non-zero integers 7, 8, 9. -/
theorem rawSignatureValues_sentinel_witness :
    scenarioHeap.txs[0]? = some scenarioTx ∧ Big0Zero scenarioHeap ∧
    rawSignatureValues scenarioHeap 0 = .ok (Big0, Big0, Big0) ∧
    (Big0Zero scenarioHeap → readInt scenarioHeap.ints Big0 = some 0) ∧
    ∃ h2, setSignatureValues scenarioHeap 0 (some 3) (some 4) (some 5) (some 6) = .ok h2 ∧
      (∃ t2, h2.txs[0]? = some t2 ∧ t2.V = some 4 ∧ t2.R = some 5 ∧ t2.S = some 6) ∧
      rawSignatureValues h2 0 = .ok (Big0, Big0, Big0) ∧
      readInt h2.ints Big0 = readInt scenarioHeap.ints Big0 ∧
      (Big0Zero scenarioHeap → ∃ pv pr ps, rawSignatureValues h2 0 = .ok (pv, pr, ps) ∧
        readInt h2.ints pv = some 0 ∧ readInt h2.ints pr = some 0 ∧
        readInt h2.ints ps = some 0) :=
  ⟨by decide, by decide,
    rawSignatureValues_sentinel scenarioHeap 0 scenarioTx (by decide)
      (some 3) (some 4) (some 5) (some 6)⟩

/-- C9: for every instance `t` and all `chainID, v, r, s` (none of them
inspected), `setSignatureValues` returns, and afterwards the fields `V, R, S`
of the instance are exactly `v, r, s`, its fields `Nonce, GasPrice, Gas, To,
Value, Data` are those of `t`, and no integer, address or byte array of the
heap has changed. -/
theorem setSignatureValues_stores (h : Heap) (tx : Ptr) (t : DepositTx)
    (ht : h.txs[tx]? = some t) (chainID v r s : Option Ptr) :
    ∃ h2 t2, setSignatureValues h tx chainID v r s = .ok h2 ∧ h2.txs[tx]? = some t2 ∧
      t2.V = v ∧ t2.R = r ∧ t2.S = s ∧
      t2.Nonce = t.Nonce ∧ t2.GasPrice = t.GasPrice ∧ t2.Gas = t.Gas ∧ t2.To = t.To ∧
      t2.Value = t.Value ∧ t2.Data = t.Data ∧
      h2.ints = h.ints ∧ h2.addrs = h.addrs ∧ h2.arrs = h.arrs := by
  exact ⟨_, _, setSignatureValues_ok h tx t ht chainID v r s, txs_set_self h tx t _ ht,
    rfl, rfl, rfl, rfl, rfl, rfl, rfl, rfl, rfl, rfl, rfl, rfl⟩

/-- C9, at a concrete input: the instance with every optional field present. -/
theorem setSignatureValues_stores_witness :
    fullHeap.txs[0]? = some fullTx ∧
    ∃ h2 t2, setSignatureValues fullHeap 0 none (some 1) none (some 2) = .ok h2 ∧
      h2.txs[0]? = some t2 ∧ t2.V = some 1 ∧ t2.R = none ∧ t2.S = some 2 ∧
      t2.Nonce = fullTx.Nonce ∧ t2.GasPrice = fullTx.GasPrice ∧ t2.Gas = fullTx.Gas ∧
      t2.To = fullTx.To ∧ t2.Value = fullTx.Value ∧ t2.Data = fullTx.Data ∧
      h2.ints = fullHeap.ints ∧ h2.addrs = fullHeap.addrs ∧ h2.arrs = fullHeap.arrs :=
  ⟨by decide, setSignatureValues_stores fullHeap 0 fullTx (by decide) none (some 1) none (some 2)⟩


/-! ## Fee accessors -/

theorem bigSet_present (ints : List Int) (d g : Ptr) (x : Int)
    (hd : d < ints.length) (hg : ints[g]? = some x) :
    ∃ ints2, bigSet ints (some d) (some g) = .ok (ints2, some d) ∧
      ints2[d]? = some x ∧ ints2[g]? = some x := by
  by_cases hdg : d = g
  · subst hdg
    exact ⟨ints, by simp [bigSet], hg, hg⟩
  · have hne : ¬ (some d = some g) := fun e => hdg (Option.some.inj e)
    refine ⟨ints.set d x, by simp only [bigSet, hne, if_false, hg, hd, if_true], ?_, ?_⟩
    · simp [hd]
    · rw [List.getElem?_set_ne hdg]
      exact hg

theorem bigSet_nil_dst (ints : List Int) (g : Ptr) :
    bigSet ints none (some g) = .panic .nilDeref := by
  simp [bigSet]

theorem bigSet_nil_src (ints : List Int) (d : Ptr) :
    bigSet ints (some d) none = .panic .nilDeref := by
  simp [bigSet]

theorem bigSet_nil_nil (ints : List Int) : bigSet ints none none = .ok (ints, none) := by
  simp [bigSet]

theorem effectiveGasPrice_eq (h : Heap) (tx : Ptr) (t : DepositTx)
    (ht : h.txs[tx]? = some t) (dst baseFee : Option Ptr) :
    effectiveGasPrice h tx dst baseFee =
      match bigSet h.ints dst t.GasPrice with
      | .panic f => .panic f
      | .ok (ints1, r) => .ok ({ h with ints := ints1 }, r) := by
  simp only [effectiveGasPrice, loadTx, ht]

/-- When the call returns: exactly when `dst` and the stored `GasPrice` are
both present or both nil. -/
theorem effectiveGasPrice_returns_iff (h : Heap) (tx : Ptr) (t : DepositTx)
    (ht : h.txs[tx]? = some t) (hg : validPtr h.ints.length t.GasPrice)
    (dst baseFee : Option Ptr) (hd : validPtr h.ints.length dst) :
    (∃ r, effectiveGasPrice h tx dst baseFee = .ok r) ↔ (dst = none ↔ t.GasPrice = none) := by
  rw [effectiveGasPrice_eq h tx t ht]
  cases hG : t.GasPrice with
  | none =>
    cases dst with
    | none => simp [bigSet_nil_nil]
    | some d => simp [bigSet_nil_src]
  | some g =>
    cases dst with
    | none => simp [bigSet_nil_dst]
    | some d =>
      rw [hG] at hg
      have hgl : g < h.ints.length := hg
      have hx : h.ints[g]? = some h.ints[g] := by simp [hgl]
      obtain ⟨i2, e, -, -⟩ := bigSet_present h.ints d g _ hd hx
      simp [e]

/-- C5, refuted at a concrete input: on the instance whose `GasPrice` is nil,
with a present `dst` (location 1, holding 42), the call does not yield the
stored `GasPrice`: it panics with a nil dereference. -/
theorem effectiveGasPrice_nil_gasPrice_panics :
    nilHeap.txs[0]? = some nilTx ∧ nilTx.GasPrice = none ∧
    readInt nilHeap.ints (some 1) = some 42 ∧
    effectiveGasPrice nilHeap 0 (some 1) none = .panic .nilDeref := by
  decide

/-- C5, amended: for every instance `t`, every `dst` and every pair of base
fees, `effectiveGasPrice(dst, b1)` and `effectiveGasPrice(dst, b2)` have the
same outcome; when `dst` and the stored `GasPrice` are both present the call
returns `dst`, and the value left in `dst` is the value of the stored
`GasPrice`, whatever `dst` held before; the instance is unchanged. -/
theorem effectiveGasPrice_ignores_baseFee (h : Heap) (tx : Ptr) (t : DepositTx)
    (ht : h.txs[tx]? = some t) (dst b1 b2 : Option Ptr) :
    effectiveGasPrice h tx dst b1 = effectiveGasPrice h tx dst b2 ∧
    ∀ d g x, dst = some d → t.GasPrice = some g → d < h.ints.length → h.ints[g]? = some x →
      ∃ h2, effectiveGasPrice h tx dst b1 = .ok (h2, dst) ∧ readInt h2.ints dst = some x ∧
        h2.txs[tx]? = some t ∧ readInt h2.ints t.GasPrice = some x := by
  refine ⟨rfl, ?_⟩
  intro d g x hdst hG hd hx
  subst hdst
  obtain ⟨i2, e, r1, r2⟩ := bigSet_present h.ints d g x hd hx
  rw [effectiveGasPrice_eq h tx t ht, hG, e]
  exact ⟨_, rfl, r1, ht, r2⟩

/-- C5 amended, at a concrete input: gas price 7, `dst` holding 12, base fees
nil and zero. -/
theorem effectiveGasPrice_ignores_baseFee_witness :
    fullHeap.txs[0]? = some fullTx ∧
    effectiveGasPrice fullHeap 0 (some 5) none = effectiveGasPrice fullHeap 0 (some 5) (some 0) ∧
    ∃ h2, effectiveGasPrice fullHeap 0 (some 5) none = .ok (h2, some 5) ∧
      readInt h2.ints (some 5) = some 7 ∧ h2.txs[0]? = some fullTx ∧
      readInt h2.ints fullTx.GasPrice = some 7 :=
  ⟨by decide, (effectiveGasPrice_ignores_baseFee fullHeap 0 fullTx (by decide)
      (some 5) none (some 0)).1,
    (effectiveGasPrice_ignores_baseFee fullHeap 0 fullTx (by decide) (some 5) none (some 0)).2
      5 1 7 rfl rfl (by decide) (by decide)⟩

/-- C6: for every instance `t`, also one whose `GasPrice` is nil, `gasPrice`,
`gasTipCap` and `gasFeeCap` all return the stored `GasPrice` field, so the
three are equal. -/
theorem gasPrice_gasTipCap_gasFeeCap (h : Heap) (tx : Ptr) (t : DepositTx)
    (ht : h.txs[tx]? = some t) :
    gasPrice h tx = .ok t.GasPrice ∧ gasTipCap h tx = .ok t.GasPrice ∧
    gasFeeCap h tx = .ok t.GasPrice ∧
    gasPrice h tx = gasTipCap h tx ∧ gasTipCap h tx = gasFeeCap h tx := by
  simp only [gasPrice, gasTipCap, gasFeeCap, loadTx, ht, and_self]

/-- C6, at a concrete input: the instance whose `GasPrice` is nil. -/
theorem gasPrice_gasTipCap_gasFeeCap_witness :
    nilHeap.txs[0]? = some nilTx ∧
    gasPrice nilHeap 0 = .ok nilTx.GasPrice ∧ gasTipCap nilHeap 0 = .ok nilTx.GasPrice ∧
    gasFeeCap nilHeap 0 = .ok nilTx.GasPrice ∧
    gasPrice nilHeap 0 = gasTipCap nilHeap 0 ∧ gasTipCap nilHeap 0 = gasFeeCap nilHeap 0 :=
  ⟨by decide, gasPrice_gasTipCap_gasFeeCap nilHeap 0 nilTx (by decide)⟩

/-! ## encode and decode -/

/-- C7: for every heap, every instance, every buffer and every byte
sequence, `encode` and `decode` do not return (neither an error nor nil):
each call halts with its own fixed panic. -/
theorem encode_decode_panic (h : Heap) (tx : Ptr) (b : Option Ptr) (input : Option Slice) :
    encode h tx b = .panic (.explicit "encode called on DepositTx") ∧
    decode h tx input = .panic (.explicit "decode called on DepositTx") ∧
    (∀ r, encode h tx b ≠ .ok r) ∧ (∀ r, decode h tx input ≠ .ok r) := by
  refine ⟨rfl, rfl, ?_, ?_⟩
  · intro r e
    cases e
  · intro r e
    cases e


/-! ## Totality -/

/-- C8, refuted at a concrete input: on the instance whose optional fields
are all nil, `effectiveGasPrice` with a present `dst` (location 1) and a
present base fee (location 0) does not complete: `dst.Set(tx.GasPrice)`
dereferences the nil `GasPrice`. -/
theorem effectiveGasPrice_not_total :
    nilHeap.txs[0]? = some nilTx ∧ WF nilHeap nilTx ∧
    validPtr nilHeap.ints.length (some 1) ∧ validPtr nilHeap.ints.length (some 0) ∧
    effectiveGasPrice nilHeap 0 (some 1) (some 0) = .panic .nilDeref := by
  decide

/-- C8, amended: on every instance, also with nil optional fields, each of
`copy`, `txType`, `accessList`, `data`, `gas`, `gasPrice`, `gasTipCap`,
`gasFeeCap`, `value`, `nonce`, `to`, `rawSignatureValues` and
`setSignatureValues` completes; `effectiveGasPrice(dst, baseFee)` completes
exactly when `dst` and the stored `GasPrice` are both present or both nil
(it panics when one of them is nil and the other is not); `chainID`
completes exactly when `deriveChainId` completes on the stored `V`. -/
theorem operations_total (deriveChainId : DeriveChainId) (DepositTxType : Nat)
    (h : Heap) (tx : Ptr) (t : DepositTx) (ht : h.txs[tx]? = some t) (hwf : WF h t)
    (dst baseFee chainId v r s : Option Ptr) (hdst : validPtr h.ints.length dst) :
    (∃ x, copy h tx = .ok x) ∧ (∃ x, txType DepositTxType h tx = .ok x) ∧
    (∃ x, accessList h tx = .ok x) ∧ (∃ x, data h tx = .ok x) ∧ (∃ x, gas h tx = .ok x) ∧
    (∃ x, gasPrice h tx = .ok x) ∧ (∃ x, gasTipCap h tx = .ok x) ∧
    (∃ x, gasFeeCap h tx = .ok x) ∧ (∃ x, value h tx = .ok x) ∧ (∃ x, nonce h tx = .ok x) ∧
    (∃ x, «to» h tx = .ok x) ∧ (∃ x, rawSignatureValues h tx = .ok x) ∧
    (∃ x, setSignatureValues h tx chainId v r s = .ok x) ∧
    ((∃ x, effectiveGasPrice h tx dst baseFee = .ok x) ↔ (dst = none ↔ t.GasPrice = none)) ∧
    ((∃ x, chainID deriveChainId h tx = .ok x) ↔ ∃ y, deriveChainId h.ints t.V = .ok y) := by
  refine ⟨⟨_, copy_ok h tx t ht hwf⟩, ⟨_, rfl⟩, ⟨_, rfl⟩, ⟨t.Data, ?_⟩, ⟨t.Gas, ?_⟩,
    ⟨t.GasPrice, ?_⟩, ⟨t.GasPrice, ?_⟩, ⟨t.GasPrice, ?_⟩, ⟨t.Value, ?_⟩, ⟨t.Nonce, ?_⟩,
    ⟨t.To, ?_⟩, ⟨_, rfl⟩, ⟨_, setSignatureValues_ok h tx t ht chainId v r s⟩,
    effectiveGasPrice_returns_iff h tx t ht hwf.1 dst baseFee hdst, ?_⟩
  · simp only [data, loadTx, ht]
  · simp only [gas, loadTx, ht]
  · simp only [gasPrice, loadTx, ht]
  · simp only [gasTipCap, loadTx, ht]
  · simp only [gasFeeCap, loadTx, ht]
  · simp only [value, loadTx, ht]
  · simp only [nonce, loadTx, ht]
  · simp only [«to», loadTx, ht]
  · simp only [chainID, loadTx, ht]
    cases hD : deriveChainId h.ints t.V with
    | ok y => simp
    | panic f => simp

/-- C8 amended, at a concrete input: the instance with every optional field
nil, a nil `dst`, and the sample derivation. -/
theorem operations_total_witness :
    nilHeap.txs[0]? = some nilTx ∧ WF nilHeap nilTx ∧ validPtr nilHeap.ints.length none ∧
    (∃ x, copy nilHeap 0 = .ok x) ∧ (∃ x, txType 126 nilHeap 0 = .ok x) ∧
    (∃ x, accessList nilHeap 0 = .ok x) ∧ (∃ x, data nilHeap 0 = .ok x) ∧
    (∃ x, gas nilHeap 0 = .ok x) ∧
    (∃ x, gasPrice nilHeap 0 = .ok x) ∧ (∃ x, gasTipCap nilHeap 0 = .ok x) ∧
    (∃ x, gasFeeCap nilHeap 0 = .ok x) ∧ (∃ x, value nilHeap 0 = .ok x) ∧
    (∃ x, nonce nilHeap 0 = .ok x) ∧
    (∃ x, «to» nilHeap 0 = .ok x) ∧ (∃ x, rawSignatureValues nilHeap 0 = .ok x) ∧
    (∃ x, setSignatureValues nilHeap 0 none (some 1) none none = .ok x) ∧
    ((∃ x, effectiveGasPrice nilHeap 0 none (some 1) = .ok x) ↔
      ((none : Option Ptr) = none ↔ nilTx.GasPrice = none)) ∧
    ((∃ x, chainID sampleDerive nilHeap 0 = .ok x) ↔
      ∃ y, sampleDerive nilHeap.ints nilTx.V = .ok y) :=
  ⟨by decide, by decide, by decide,
    operations_total sampleDerive 126 nilHeap 0 nilTx (by decide) (by decide)
      none (some 1) none (some 1) none none (by decide)⟩

/-! ## Chain ID -/

/-- C10: for every instance `t`, `chainID()` is `deriveChainId` applied to
the stored `V`, for every `V` (nil included): the same pointer, the same
integer store, the same panic; the other stores are left as they were.  It
does not depend on any other field: two instances with the same `V`, over
the same integers, give the same outcome. -/
theorem chainID_derives_from_V (deriveChainId : DeriveChainId) (h : Heap) (tx : Ptr)
    (t : DepositTx) (ht : h.txs[tx]? = some t) :
    intsOutcome (chainID deriveChainId h tx) = deriveChainId h.ints t.V ∧
    (∀ h2 p, chainID deriveChainId h tx = .ok (h2, p) →
      h2.addrs = h.addrs ∧ h2.arrs = h.arrs ∧ h2.txs = h.txs) ∧
    ∀ k ty u, k.txs[ty]? = some u → u.V = t.V → k.ints = h.ints →
      intsOutcome (chainID deriveChainId k ty) = intsOutcome (chainID deriveChainId h tx) := by
  have key : ∀ (k : Heap) (ty : Ptr) (u : DepositTx), k.txs[ty]? = some u →
      intsOutcome (chainID deriveChainId k ty) = deriveChainId k.ints u.V := by
    intro k ty u hu
    simp only [chainID, loadTx, hu]
    cases hD : deriveChainId k.ints u.V with
    | ok y => rfl
    | panic f => rfl
  refine ⟨key h tx t ht, ?_, ?_⟩
  · intro h2 p hc
    simp only [chainID, loadTx, ht] at hc
    cases hD : deriveChainId h.ints t.V with
    | ok y =>
      rw [hD] at hc
      injection hc with hc
      injection hc with e1 e2
      subst e1
      exact ⟨rfl, rfl, rfl⟩
    | panic f =>
      rw [hD] at hc
      cases hc
  · intro k ty u hu hV hi
    rw [key k ty u hu, key h tx t ht, hV, hi]

/-- C10, at concrete inputs: the instance whose `V` is nil and the instance
whose `V` holds 27, with the sample derivation. -/
theorem chainID_derives_from_V_witness :
    nilHeap.txs[0]? = some nilTx ∧ fullHeap.txs[0]? = some fullTx ∧
    intsOutcome (chainID sampleDerive nilHeap 0) = sampleDerive nilHeap.ints nilTx.V ∧
    intsOutcome (chainID sampleDerive fullHeap 0) = sampleDerive fullHeap.ints fullTx.V :=
  ⟨by decide, by decide, (chainID_derives_from_V sampleDerive nilHeap 0 nilTx (by decide)).1,
    (chainID_derives_from_V sampleDerive fullHeap 0 fullTx (by decide)).1⟩

/-! ## Access list and plain accessors -/

/-- C11: for every instance, `accessList()` returns the nil access list, an
empty sequence, whatever the fields of the instance are, also after a call
of `setSignatureValues` with any arguments. -/
theorem accessList_empty (h : Heap) (tx : Ptr) (t : DepositTx) (ht : h.txs[tx]? = some t)
    (chainId v r s : Option Ptr) :
    (∃ al, accessList h tx = .ok al ∧ AccessList.len al = 0) ∧
    ∃ h2, setSignatureValues h tx chainId v r s = .ok h2 ∧
      ∃ al, accessList h2 tx = .ok al ∧ AccessList.len al = 0 :=
  ⟨⟨none, rfl, rfl⟩, _, setSignatureValues_ok h tx t ht chainId v r s, none, rfl, rfl⟩

/-- C11, at a concrete input: the instance with every optional field
present, before and after `setSignatureValues`. -/
theorem accessList_empty_witness :
    fullHeap.txs[0]? = some fullTx ∧
    (∃ al, accessList fullHeap 0 = .ok al ∧ AccessList.len al = 0) ∧
    ∃ h2, setSignatureValues fullHeap 0 (some 0) (some 3) (some 4) (some 5) = .ok h2 ∧
      ∃ al, accessList h2 0 = .ok al ∧ AccessList.len al = 0 :=
  ⟨by decide, accessList_empty fullHeap 0 fullTx (by decide) (some 0) (some 3) (some 4) (some 5)⟩

/-- C13: for every instance `t`, the plain accessors return the stored
fields unmodified: `nonce() = Nonce`, `gas() = Gas`, `to() = To` (nil when
`To` is nil), `value() = Value` and `data() = Data`. -/
theorem plain_accessors (h : Heap) (tx : Ptr) (t : DepositTx) (ht : h.txs[tx]? = some t) :
    nonce h tx = .ok t.Nonce ∧ gas h tx = .ok t.Gas ∧ «to» h tx = .ok t.To ∧
    value h tx = .ok t.Value ∧ data h tx = .ok t.Data := by
  simp only [nonce, gas, «to», value, data, loadTx, ht, and_self]

/-- C13, at a concrete input: the instance of the scenario, whose `To` is nil. -/
theorem plain_accessors_witness :
    scenarioHeap.txs[0]? = some scenarioTx ∧
    nonce scenarioHeap 0 = .ok scenarioTx.Nonce ∧ gas scenarioHeap 0 = .ok scenarioTx.Gas ∧
    «to» scenarioHeap 0 = .ok scenarioTx.To ∧ value scenarioHeap 0 = .ok scenarioTx.Value ∧
    data scenarioHeap 0 = .ok scenarioTx.Data :=
  ⟨by decide, plain_accessors scenarioHeap 0 scenarioTx (by decide)⟩

/-- C15: the `chainID` argument of `setSignatureValues` is discarded: for
every instance and all `c1, c2, v, r, s`, `setSignatureValues(c1, v, r, s)`
and `setSignatureValues(c2, v, r, s)` leave the same heap, and `chainID()`
afterwards is `deriveChainId` applied to `v`, whatever was passed as chain
ID. -/
theorem setSignatureValues_discards_chainID (deriveChainId : DeriveChainId) (h : Heap)
    (tx : Ptr) (t : DepositTx) (ht : h.txs[tx]? = some t) (c1 c2 v r s : Option Ptr) :
    setSignatureValues h tx c1 v r s = setSignatureValues h tx c2 v r s ∧
    ∃ h2, setSignatureValues h tx c1 v r s = .ok h2 ∧ h2.ints = h.ints ∧
      intsOutcome (chainID deriveChainId h2 tx) = deriveChainId h.ints v := by
  refine ⟨rfl, _, setSignatureValues_ok h tx t ht c1 v r s, rfl, ?_⟩
  simp only [chainID, loadTx, txs_set_self h tx t _ ht]
  cases hD : deriveChainId h.ints v with
  | ok y => rfl
  | panic f => rfl

/-- C15, at a concrete input: the scenario instance, signed once with chain
ID 1 and once with a nil chain ID. -/
theorem setSignatureValues_discards_chainID_witness :
    scenarioHeap.txs[0]? = some scenarioTx ∧
    setSignatureValues scenarioHeap 0 (some 3) (some 4) (some 5) (some 6) =
      setSignatureValues scenarioHeap 0 none (some 4) (some 5) (some 6) ∧
    ∃ h2, setSignatureValues scenarioHeap 0 (some 3) (some 4) (some 5) (some 6) = .ok h2 ∧
      h2.ints = scenarioHeap.ints ∧
      intsOutcome (chainID sampleDerive h2 0) = sampleDerive scenarioHeap.ints (some 4) :=
  ⟨by decide, setSignatureValues_discards_chainID sampleDerive scenarioHeap 0 scenarioTx
    (by decide) (some 3) none (some 4) (some 5) (some 6)⟩

/-! ## The only mutator -/

theorem keepHeap_ok {α : Type} (h h2 : Heap) (r : Result α) (hk : keepHeap h r = .ok h2) :
    h2 = h := by
  cases r with
  | ok a =>
    injection hk with hk
    exact hk.symm
  | panic f => cases hk

theorem bigSet_frame (ints ints2 : List Int) (z x r : Option Ptr)
    (hs : bigSet ints z x = .ok (ints2, r)) :
    (∀ q, z ≠ some q → ints2[q]? = ints[q]?) ∧ readInt ints2 x = readInt ints x := by
  unfold bigSet at hs
  split at hs
  · injection hs with hs
    injection hs with e1 e2
    subst e1
    exact ⟨fun _ _ => rfl, rfl⟩
  · rename_i hzx
    split at hs
    · rename_i zp xp
      split at hs
      · split at hs
        · injection hs with hs
          injection hs with e1 e2
          subst e1
          have hne : zp ≠ xp := fun e => hzx (by rw [e])
          refine ⟨?_, ?_⟩
          · intro q hq
            have hne2 : zp ≠ q := fun e => hq (by rw [e])
            exact List.getElem?_set_ne hne2
          · exact List.getElem?_set_ne hne
        · cases hs
      · cases hs
    · cases hs

theorem bigSet_result (ints ints2 : List Int) (z x r : Option Ptr)
    (hs : bigSet ints z x = .ok (ints2, r)) (hz : z ≠ none) :
    readInt ints2 z = readInt ints x := by
  unfold bigSet at hs
  split at hs
  · rename_i hzx
    injection hs with hs
    injection hs with e1 e2
    subst e1
    rw [hzx]
  · split at hs
    · rename_i zp xp
      split at hs
      · rename_i v hv
        split at hs
        · rename_i hlt
          injection hs with hs
          injection hs with e1 e2
          subst e1
          simp only [readInt, hv]
          simp [hlt]
        · cases hs
      · cases hs
    · cases hs

theorem readInt_of_writesNoOld (deriveChainId : DeriveChainId) (hD : WritesNoOld deriveChainId)
    (ints ints2 : List Int) (v p : Option Ptr) (hr : deriveChainId ints v = .ok (ints2, p))
    (q : Option Ptr) (hq : validPtr ints.length q) : readInt ints2 q = readInt ints q := by
  cases q with
  | none => rfl
  | some k => exact hD ints v ints2 p hr k hq

/-- C12, refuted at a concrete input: on the instance with gas price 7 and
value 3, `effectiveGasPrice` with `dst` the pointer stored in `Value` leaves
the struct as it was but the field `Value` now reads 7. -/
theorem effectiveGasPrice_overwrites_aliased_field :
    fullHeap.txs[0]? = some fullTx ∧ fullTx.Value = some 2 ∧
    effectiveGasPrice fullHeap 0 (some 2) none =
      .ok (⟨[0, 7, 7, 27, 11, 12], fullHeap.addrs, fullHeap.arrs, [fullTx]⟩, some 2) ∧
    (view fullHeap fullTx).Value = some 3 ∧
    (view ⟨[0, 7, 7, 27, 11, 12], fullHeap.addrs, fullHeap.arrs, [fullTx]⟩ fullTx).Value =
      some 7 := by
  decide

/-- C12, amended: `setSignatureValues` is the only mutator of the struct:
for every instance `t`, each of `copy`, `txType`, `chainID`, `accessList`,
`data`, `gas`, `gasPrice`, `gasTipCap`, `gasFeeCap`, `value`, `nonce`, `to`,
`rawSignatureValues` and `effectiveGasPrice(dst, baseFee)` leaves every
field of the struct `t` as it was.  What the fields point to is left as it
was too, except that `effectiveGasPrice` writes the integer `dst` points to
and nothing else: a numeric field of `t` that stores the very pointer `dst`
reads the gas price afterwards, the gas price itself keeps its value, and
`t` reads as before when `dst` is none of its pointers; and `chainID` leaves
the integers alone as far as `deriveChainId` does. -/
theorem only_setSignatureValues_mutates (deriveChainId : DeriveChainId) (DepositTxType : Nat)
    (h : Heap) (tx : Ptr) (t : DepositTx) (ht : h.txs[tx]? = some t) (hwf : WF h t)
    (call : Call) (h2 : Heap)
    (hc : heapAfter deriveChainId DepositTxType h tx call = .ok h2) :
    h2.txs[tx]? = some t ∧ LeftAlone deriveChainId h h2 t call := by
  cases call
  case copy =>
    simp only [heapAfter, copy_ok h tx t ht hwf, newHeap, Result.ok.injEq] at hc
    subst hc
    exact ⟨txs_copyHeap_old h t tx t ht, view_copyHeap_old h t t hwf⟩
  case chainID =>
    simp only [heapAfter, chainID, loadTx, ht] at hc
    cases hD : deriveChainId h.ints t.V with
    | panic f =>
      rw [hD] at hc
      cases hc
    | ok y =>
      obtain ⟨ints1, p⟩ := y
      rw [hD] at hc
      simp only [newHeap, Result.ok.injEq] at hc
      subst hc
      refine ⟨ht, ?_⟩
      intro hW
      exact view_numFields _ _ _
        (fun g => readInt_of_writesNoOld deriveChainId hW _ _ _ _ hD _ (validPtr_get h t hwf g))
        rfl rfl
  case effectiveGasPrice dst baseFee =>
    simp only [heapAfter, effectiveGasPrice_eq h tx t ht] at hc
    cases hS : bigSet h.ints dst t.GasPrice with
    | panic f =>
      rw [hS] at hc
      cases hc
    | ok y =>
      obtain ⟨ints1, p⟩ := y
      rw [hS] at hc
      simp only [newHeap, Result.ok.injEq] at hc
      subst hc
      obtain ⟨f1, f2⟩ := bigSet_frame _ _ _ _ _ hS
      refine ⟨ht, f1, rfl, rfl, f2, ?_, ?_⟩
      · intro g hg hne
        rw [hg]
        exact bigSet_result _ _ _ _ _ hS hne
      intro hsep
      refine view_numFields _ _ _ ?_ rfl rfl
      intro g
      cases hg : NumField.get t g with
      | none => rfl
      | some q => exact f1 q (hsep g q hg)
  all_goals
    simp only [heapAfter] at hc
    have e := keepHeap_ok h h2 _ hc
    subst e
    exact ⟨ht, rfl⟩

/-- C12 amended, at a concrete input: `effectiveGasPrice` on the scenario instance
with a `dst` (location 6, holding 9) that the instance does not point to. -/
theorem only_setSignatureValues_mutates_witness :
    scenarioHeap.txs[0]? = some scenarioTx ∧ WF scenarioHeap scenarioTx ∧
    heapAfter sampleDerive 126 scenarioHeap 0 (.effectiveGasPrice (some 6) none) =
      .ok ⟨[0, 100, 0, 1, 7, 8, 100], [], [[]], [scenarioTx]⟩ ∧
    (⟨[0, 100, 0, 1, 7, 8, 100], [], [[]], [scenarioTx]⟩ : Heap).txs[0]? = some scenarioTx ∧
    LeftAlone sampleDerive scenarioHeap ⟨[0, 100, 0, 1, 7, 8, 100], [], [[]], [scenarioTx]⟩
      scenarioTx (.effectiveGasPrice (some 6) none) :=
  ⟨by decide, by decide, by decide,
    only_setSignatureValues_mutates sampleDerive 126 scenarioHeap 0 scenarioTx (by decide)
      (by decide) (.effectiveGasPrice (some 6) none) _ (by decide)⟩

/-! ## Copy of a copy -/

/-- C14: `copy` is idempotent up to structural equality: for every instance
`t`, also one with nil numeric fields, the copy of `copy(t)` is field for
field equal to `copy(t)`. -/
theorem copy_idempotent (h : Heap) (tx : Ptr) (t : DepositTx)
    (ht : h.txs[tx]? = some t) (hwf : WF h t) :
    ∃ h1 c1 cs1, copy h tx = .ok (h1, c1) ∧ h1.txs[c1]? = some cs1 ∧
      ∃ h2 c2 cs2, copy h1 c1 = .ok (h2, c2) ∧ h2.txs[c2]? = some cs2 ∧
        h2.txs[c1]? = some cs1 ∧ view h2 cs2 = view h2 cs1 ∧ view h2 cs1 = view h1 cs1 := by
  have hv := view_copy h t hwf
  have hwf1 := wf_copyStruct h t hwf
  have hnew := txs_copyHeap_new h t
  have hv2 := view_copy (copyHeap h t) (copyStruct h t) hwf1
  have hold := view_copyHeap_old (copyHeap h t) (copyStruct h t) (copyStruct h t) hwf1
  have e1 : readInt (copyHeap h t).ints (copyStruct h t).GasPrice = some _ :=
    congrArg View.GasPrice hv
  have e2 : readInt (copyHeap h t).ints (copyStruct h t).Value = some _ :=
    congrArg View.Value hv
  have e3 : readInt (copyHeap h t).ints (copyStruct h t).V = some _ := congrArg View.V hv
  have e4 : readInt (copyHeap h t).ints (copyStruct h t).R = some _ := congrArg View.R hv
  have e5 : readInt (copyHeap h t).ints (copyStruct h t).S = some _ := congrArg View.S hv
  refine ⟨copyHeap h t, h.txs.length, copyStruct h t, copy_ok h tx t ht hwf, hnew,
    copyHeap (copyHeap h t) (copyStruct h t), (copyHeap h t).txs.length,
    copyStruct (copyHeap h t) (copyStruct h t),
    copy_ok (copyHeap h t) h.txs.length (copyStruct h t) hnew hwf1,
    txs_copyHeap_new _ _, txs_copyHeap_old _ _ _ _ hnew, ?_, hold⟩
  rw [hold, hv2]
  simp only [view, e1, e2, e3, e4, e5, Option.getD_some]

/-- C14, at a concrete input: the instance with every optional field nil,
whose copy differs from it. -/
theorem copy_idempotent_witness :
    nilHeap.txs[0]? = some nilTx ∧ WF nilHeap nilTx ∧
    ∃ h1 c1 cs1, copy nilHeap 0 = .ok (h1, c1) ∧ h1.txs[c1]? = some cs1 ∧
      ∃ h2 c2 cs2, copy h1 c1 = .ok (h2, c2) ∧ h2.txs[c2]? = some cs2 ∧
        h2.txs[c1]? = some cs1 ∧ view h2 cs2 = view h2 cs1 ∧ view h2 cs1 = view h1 cs1 :=
  ⟨by decide, by decide, copy_idempotent nilHeap 0 nilTx (by decide) (by decide)⟩

/-! ## effectiveGasPrice on a copy -/

/-- C16, refuted at a concrete input: with the stored `GasPrice` nil and
`dst` nil as well, `effectiveGasPrice` does not fail: `dst.Set(tx.GasPrice)`
finds the two pointers equal and returns `dst`, that is nil, leaving the
heap as it was. -/
theorem effectiveGasPrice_nil_nil_returns :
    nilHeap.txs[0]? = some nilTx ∧ nilTx.GasPrice = none ∧
    effectiveGasPrice nilHeap 0 none none = .ok (nilHeap, none) := by
  decide

/-- C16, amended: `effectiveGasPrice` fails exactly when one of the stored
`GasPrice` and `dst` is nil and the other is not (with both nil it returns
nil); consequently for every instance `t`, every present `dst` and every
`baseFee`, `effectiveGasPrice(dst, baseFee)` on `copy(t)` returns `dst`,
holding the value of `t.GasPrice` when that is present and 0 when it is
nil. -/
theorem effectiveGasPrice_on_copy (h : Heap) (tx : Ptr) (t : DepositTx)
    (ht : h.txs[tx]? = some t) (hwf : WF h t) (dst baseFee : Option Ptr)
    (hdst : validPtr h.ints.length dst) :
    ((∃ f, effectiveGasPrice h tx dst baseFee = .panic f) ↔
      ((dst = none ∧ t.GasPrice ≠ none) ∨ (dst ≠ none ∧ t.GasPrice = none))) ∧
    (∃ h1 c, copy h tx = .ok (h1, c)) ∧
    ∀ h1 c, copy h tx = .ok (h1, c) → ∀ d b, d < h1.ints.length →
      ∃ h2, effectiveGasPrice h1 c (some d) b = .ok (h2, some d) ∧
        (∀ x, readInt h.ints t.GasPrice = some x → readInt h2.ints (some d) = some x) ∧
        (t.GasPrice = none → readInt h2.ints (some d) = some 0) := by
  have hc := copy_ok h tx t ht hwf
  refine ⟨?_, ⟨_, _, hc⟩, ?_⟩
  · have hiff := effectiveGasPrice_returns_iff h tx t ht hwf.1 dst baseFee hdst
    cases hr : effectiveGasPrice h tx dst baseFee with
    | ok y =>
      have hret : ∃ r, effectiveGasPrice h tx dst baseFee = .ok r := ⟨y, hr⟩
      have hb := hiff.mp hret
      constructor
      · rintro ⟨f, hf⟩
        cases hf
      · rintro (⟨a, b⟩ | ⟨a, b⟩)
        · exact absurd (hb.mp a) b
        · exact absurd (hb.mpr b) a
    | panic f =>
      have hnr : ¬ ∃ r, effectiveGasPrice h tx dst baseFee = .ok r := by
        rintro ⟨r, e⟩
        rw [hr] at e
        cases e
      have hnb : ¬ (dst = none ↔ t.GasPrice = none) := fun hb => hnr (hiff.mpr hb)
      constructor
      · intro _
        by_cases hd : dst = none
        · exact Or.inl ⟨hd, fun hg => hnb ⟨fun _ => hg, fun _ => hd⟩⟩
        · by_cases hg : t.GasPrice = none
          · exact Or.inr ⟨hd, hg⟩
          · exact absurd ⟨fun a => absurd a hd, fun a => absurd a hg⟩ hnb
      · intro _
        exact ⟨f, rfl⟩
  · intro h1 c hcopy d b hd
    rw [hc] at hcopy
    injection hcopy with hcopy
    injection hcopy with e1 e2
    subst e1
    subst e2
    have hv := view_copy h t hwf
    have hg : (copyHeap h t).ints[h.ints.length + 1]? = some ((readInt h.ints t.GasPrice).getD 0) :=
      congrArg View.GasPrice hv
    obtain ⟨i2, hs, r1, -⟩ := bigSet_present (copyHeap h t).ints d (h.ints.length + 1) _ hd hg
    have hG : (copyStruct h t).GasPrice = some (h.ints.length + 1) := rfl
    refine ⟨_, by rw [effectiveGasPrice_eq _ _ _ (txs_copyHeap_new h t), hG, hs], ?_, ?_⟩
    · intro x hx
      rw [hx] at r1
      exact r1
    · intro hn
      rw [hn] at r1
      exact r1

/-- C16 amended, at a concrete input: the instance whose `GasPrice` is nil
and a present `dst` (location 1). -/
theorem effectiveGasPrice_on_copy_witness :
    nilHeap.txs[0]? = some nilTx ∧ WF nilHeap nilTx ∧ validPtr nilHeap.ints.length (some 1) ∧
    ((∃ f, effectiveGasPrice nilHeap 0 (some 1) none = .panic f) ↔
      (((some 1 : Option Ptr) = none ∧ nilTx.GasPrice ≠ none) ∨
        ((some 1 : Option Ptr) ≠ none ∧ nilTx.GasPrice = none))) ∧
    (∃ h1 c, copy nilHeap 0 = .ok (h1, c)) ∧
    ∀ h1 c, copy nilHeap 0 = .ok (h1, c) → ∀ d b, d < h1.ints.length →
      ∃ h2, effectiveGasPrice h1 c (some d) b = .ok (h2, some d) ∧
        (∀ x, readInt nilHeap.ints nilTx.GasPrice = some x →
          readInt h2.ints (some d) = some x) ∧
        (nilTx.GasPrice = none → readInt h2.ints (some d) = some 0) :=
  ⟨by decide, by decide, by decide,
    effectiveGasPrice_on_copy nilHeap 0 nilTx (by decide) (by decide) (some 1) none (by decide)⟩

end DepositTx
